import Mathlib

/-!
Verification development for the blind-party game server
(backend/internal/handler/game and backend/internal/schema).

Go source is embedded shallowly:
* `float64` values (positions, durations, timestamps in seconds) become `ℚ`;
* Go `int` becomes `ℤ`;
* the Go conversion `int(f)` (truncation toward zero) is `goInt`;
* `time.Time` values are seconds since an arbitrary epoch (`ℚ`), the zero
  `time.Time` being `0`;
* struct mutation through pointers becomes explicit state passing; note that
  `game.Rounds = append(game.Rounds, round)` stores a value copy of the round
  while `game.CurrentRound = &round` aliases the mutable round, so the model
  keeps `rounds : List Round` (immutable snapshots) separate from
  `currentRound : Option Round` (the mutated cell).
-/

set_option linter.unusedVariables false

namespace BlindParty

/-- Go `int(q)` for `q : float64`: truncation toward zero. -/
def goInt (q : ℚ) : ℤ := if 0 ≤ q then ⌊q⌋ else ⌈q⌉

/-- `schema.WoolColor`: ints 0..15 are wool colors, 16 is the empty sentinel Air. -/
def Air : ℤ := 16

/-- `schema.Position`. -/
structure Position where
  x : ℚ
  y : ℚ
deriving DecidableEq, Repr

/-- `schema.PlayerStats`. -/
structure PlayerStats where
  roundsSurvived : ℤ := 0
  totalDistance : ℚ := 0
  eliminatedAt : Option ℚ := none
  finalPosition : ℤ := 0
  score : ℤ := 0
  survivalPoints : ℤ := 0
  eliminationBonus : ℤ := 0
  speedBonuses : ℤ := 0
  streakBonuses : ℤ := 0
  currentStreak : ℤ := 0
  longestStreak : ℤ := 0
  threeStreakCount : ℤ := 0
  fiveStreakCount : ℤ := 0
  tenStreakCount : ℤ := 0
  averageResponseTime : ℚ := 0
  perfectRounds : ℤ := 0
deriving DecidableEq, Repr

/-- `schema.Player`. -/
structure Player where
  id : String
  name : String
  position : Position
  isSpectator : Bool := false
  isEliminated : Bool := false
  joinedRound : ℤ := 1
  lastUpdate : ℚ := 0
  lastValidPosition : Position := position
  lastMoveTime : ℚ := 0
  movementSpeed : ℚ := 0
  stats : PlayerStats := {}
deriving DecidableEq, Repr

/-- `schema.RoundPhase`. -/
inductive RoundPhase where
  | colorCall
  | rushPhase
  | eliminationCheck
  | roundTransition
deriving DecidableEq, Repr

/-- `schema.GamePhase`. -/
inductive GamePhase where
  | preGame
  | inGame
  | settlement
deriving DecidableEq, Repr

/-- `schema.Round`. -/
structure Round where
  number : ℤ
  phase : RoundPhase
  countdownTime : ℤ := 1
  startTime : ℚ
  endTime : Option ℚ := none
  colorToShow : ℤ
  rushDuration : ℚ
  eliminatedCount : ℤ := 0
deriving DecidableEq, Repr

/-- `schema.TimingRange`. -/
structure TimingRange where
  startRound : ℤ
  endRound : ℤ
  duration : ℚ
deriving DecidableEq, Repr

instance : Inhabited TimingRange := ⟨⟨0, 0, 0⟩⟩

/-- `schema.GameConfig` (the fields the game logic reads). -/
structure GameConfig where
  mapWidth : ℤ
  mapHeight : ℤ
  timingProgression : List TimingRange
  survivalPointsPerRound : ℤ
  eliminationBonusMultiplier : ℤ
  speedBonusThreshold : ℚ
  perfectBonusThreshold : ℚ
  speedBonusPoints : ℤ
  perfectBonusPoints : ℤ
  finalWinnerBonus : ℤ
  enduranceBonus : ℤ
  streakBonuses : List (ℤ × ℤ)
  baseMovementSpeed : ℚ
  maxMovementSpeed : ℚ
  lagCompensationMs : ℤ
deriving DecidableEq, Repr

/-- The timing table installed by `NewGame` (new_game.go). -/
def defaultTimingProgression : List TimingRange :=
  [⟨1, 3, 4⟩, ⟨4, 6, 7/2⟩, ⟨7, 9, 3⟩, ⟨10, 12, 5/2⟩,
   ⟨13, 15, 2⟩, ⟨16, 18, 9/5⟩, ⟨19, 21, 3/2⟩, ⟨22, 999, 6/5⟩]

/-- The configuration installed by `NewGame` (new_game.go). -/
def defaultConfig : GameConfig where
  mapWidth := 256
  mapHeight := 256
  timingProgression := defaultTimingProgression
  survivalPointsPerRound := 10
  eliminationBonusMultiplier := 5
  speedBonusThreshold := 1
  perfectBonusThreshold := 2
  speedBonusPoints := 2
  perfectBonusPoints := 50
  finalWinnerBonus := 100
  enduranceBonus := 200
  streakBonuses := [(3, 30), (5, 75), (10, 200)]
  baseMovementSpeed := 4
  maxMovementSpeed := 5
  lagCompensationMs := 100

/-- Row-major map access `game.Map[y][x]` (bounds are always checked before
access in the Go code, so the default is never reached on checked paths). -/
def mapAt (m : List (List ℤ)) (y x : ℤ) : ℤ :=
  ((m.getD y.toNat []).getD x.toNat Air)

/-- `schema.Game` (the fields the game logic reads and writes). -/
structure Game where
  phase : GamePhase
  players : List Player
  playerCount : ℤ
  aliveCount : ℤ
  rounds : List Round
  currentRound : Option Round := none
  map : List (List ℤ)
  positionHistory : List (String × Position) := []
  config : GameConfig
deriving DecidableEq, Repr

/-- The scan inside `calculateRushDuration` (in_game.go): first timing range
whose `[StartRound, EndRound]` interval contains the round number. -/
def findTiming : List TimingRange → ℤ → Option ℚ
  | [], _ => none
  | t :: ts, n =>
      if t.startRound ≤ n ∧ n ≤ t.endRound then some t.duration else findTiming ts n

/-- `calculateRushDuration` (in_game.go): table lookup with default 4.0 for an
empty table and clamping to the last entry when no range matches (the Go code
indexes `TimingProgression[len-1]`, reached only when the table is nonempty). -/
def calculateRushDuration (cfg : GameConfig) (roundNumber : ℤ) : ℚ :=
  if cfg.timingProgression.isEmpty then 4
  else
    match findTiming cfg.timingProgression roundNumber with
    | some d => d
    | none => (cfg.timingProgression.getLastD default).duration

/-- Ordered-disjoint tables: every range ends before any later range starts. -/
def TableOrdered (l : List TimingRange) : Prop :=
  List.Pairwise (fun a b => a.endRound < b.startRound) l

theorem findTiming_mem {l : List TimingRange} {n : ℤ} {t : TimingRange}
    (hp : TableOrdered l) (ht : t ∈ l)
    (h1 : t.startRound ≤ n) (h2 : n ≤ t.endRound) :
    findTiming l n = some t.duration := by
  induction l with
  | nil => cases ht
  | cons a l ih =>
      rcases List.mem_cons.mp ht with rfl | ht'
      · rw [findTiming, if_pos (show t.startRound ≤ n ∧ n ≤ t.endRound from ⟨h1, h2⟩)]
      · have ha : a.endRound < t.startRound := (List.pairwise_cons.mp hp).1 t ht'
        have hno : ¬(a.startRound ≤ n ∧ n ≤ a.endRound) := by
          rintro ⟨-, h⟩; omega
        rw [findTiming, if_neg hno]
        exact ih (List.pairwise_cons.mp hp).2 ht'

theorem findTiming_none {l : List TimingRange} {n : ℤ}
    (h : ∀ t ∈ l, t.endRound < n) : findTiming l n = none := by
  induction l with
  | nil => rfl
  | cons a l ih =>
      have hno : ¬(a.startRound ≤ n ∧ n ≤ a.endRound) := by
        have := h a (List.mem_cons_self a l)
        rintro ⟨-, h2⟩; omega
      rw [findTiming, if_neg hno]
      exact ih fun t ht => h t (List.mem_cons_of_mem a ht)

theorem calculateRushDuration_of_mem {cfg : GameConfig} {n : ℤ} {t : TimingRange}
    (hp : TableOrdered cfg.timingProgression) (ht : t ∈ cfg.timingProgression)
    (h1 : t.startRound ≤ n) (h2 : n ≤ t.endRound) :
    calculateRushDuration cfg n = t.duration := by
  have hne : ¬cfg.timingProgression.isEmpty := by
    cases h : cfg.timingProgression with
    | nil => rw [h] at ht; cases ht
    | cons a l => simp [h]
  rw [calculateRushDuration, if_neg (by simpa using hne), findTiming_mem hp ht h1 h2]

theorem calculateRushDuration_clamp {cfg : GameConfig} {n : ℤ}
    (hne : cfg.timingProgression ≠ [])
    (h : ∀ t ∈ cfg.timingProgression, t.endRound < n) :
    calculateRushDuration cfg n = (cfg.timingProgression.getLastD default).duration := by
  rw [calculateRushDuration, if_neg (by simpa using hne), findTiming_none h]

theorem defaultTable_ordered : TableOrdered defaultTimingProgression := by
  unfold TableOrdered defaultTimingProgression
  decide

theorem rushDuration_default_high {n : ℤ} (h : 22 ≤ n) :
    calculateRushDuration defaultConfig n = 6/5 := by
  rcases le_or_lt n 999 with h999 | h999
  · exact calculateRushDuration_of_mem (t := ⟨22, 999, 6/5⟩) defaultTable_ordered
      (by simp [defaultConfig, defaultTimingProgression]) h h999
  · rw [@calculateRushDuration_clamp defaultConfig n
      (by simp [defaultConfig, defaultTimingProgression])
      (by
        intro t ht
        simp only [defaultConfig, defaultTimingProgression, List.mem_cons,
          List.not_mem_nil, or_false] at ht
        rcases ht with rfl | rfl | rfl | rfl | rfl | rfl | rfl | rfl <;> simp <;> omega)]
    rfl

theorem rushDuration_default_step {n : ℤ} (h : 1 ≤ n) :
    calculateRushDuration defaultConfig (n + 1) ≤ calculateRushDuration defaultConfig n := by
  rcases le_or_lt 22 n with h22 | h22
  · rw [rushDuration_default_high h22, rushDuration_default_high (by omega)]
  · interval_cases n <;>
      norm_num [calculateRushDuration, defaultConfig, defaultTimingProgression, findTiming]

theorem rushDuration_default_antitone {m n : ℤ} (h1 : 1 ≤ m) (hmn : m ≤ n) :
    calculateRushDuration defaultConfig n ≤ calculateRushDuration defaultConfig m := by
  have H : ∀ k : ℕ,
      calculateRushDuration defaultConfig (m + k) ≤ calculateRushDuration defaultConfig m := by
    intro k
    induction k with
    | zero => simp
    | succ k ih =>
        have he : (m + (k + 1 : ℕ) : ℤ) = (m + k) + 1 := by push_cast; ring
        rw [he]
        exact le_trans (rushDuration_default_step (by omega)) ih
  have hk : n = m + ((n - m).toNat : ℤ) := by omega
  rw [hk]; exact H _

/-- C7: For every round number, `calculateRushDuration` returns the Duration of
the timing-progression entry whose [StartRound, EndRound] interval contains the
round number (for ordered, disjoint tables); for round numbers beyond every
configured range it returns the last entry's Duration (clamping); and under the
default configuration table the returned duration is monotonically
non-increasing in the round number. -/
theorem c7_rush_duration_lookup :
    (∀ (cfg : GameConfig) (n : ℤ) (t : TimingRange),
        TableOrdered cfg.timingProgression → t ∈ cfg.timingProgression →
        t.startRound ≤ n → n ≤ t.endRound →
        calculateRushDuration cfg n = t.duration)
    ∧ (∀ (cfg : GameConfig) (n : ℤ),
        cfg.timingProgression ≠ [] →
        (∀ t ∈ cfg.timingProgression, t.endRound < n) →
        calculateRushDuration cfg n = (cfg.timingProgression.getLastD default).duration)
    ∧ (∀ m n : ℤ, 1 ≤ m → m ≤ n →
        calculateRushDuration defaultConfig n ≤ calculateRushDuration defaultConfig m) :=
  ⟨fun _ _ _ hp ht h1 h2 => calculateRushDuration_of_mem hp ht h1 h2,
   fun _ _ hne h => calculateRushDuration_clamp hne h,
   fun _ _ h1 hmn => rushDuration_default_antitone h1 hmn⟩

/-- Witness for C7 at concrete inputs: round 5 falls in the (4,6,3.5) range,
round 1000 clamps to the last entry, and round 17 is no slower than round 3. -/
theorem c7_rush_duration_lookup_witness :
    calculateRushDuration defaultConfig 5 = 7/2
    ∧ calculateRushDuration defaultConfig 1000 = 6/5
    ∧ calculateRushDuration defaultConfig 17 ≤ calculateRushDuration defaultConfig 3 := by
  refine ⟨?_, ?_, ?_⟩
  · have h := c7_rush_duration_lookup.1 defaultConfig 5 ⟨4, 6, 7/2⟩ defaultTable_ordered
      (by simp [defaultConfig, defaultTimingProgression]) (by norm_num) (by norm_num)
    simpa using h
  · have h := c7_rush_duration_lookup.2.1 defaultConfig 1000
      (by simp [defaultConfig, defaultTimingProgression])
      (by
        intro t ht
        simp only [defaultConfig, defaultTimingProgression, List.mem_cons,
          List.not_mem_nil, or_false] at ht
        rcases ht with rfl | rfl | rfl | rfl | rfl | rfl | rfl | rfl <;> norm_num)
    simpa [defaultConfig, defaultTimingProgression] using h
  · exact c7_rush_duration_lookup.2.2 3 17 (by norm_num) (by norm_num)

/-- `eliminatePlayer` (in_game.go): marks the player eliminated, decrements the
alive count, records elimination time, rounds survived and the provisional
final position, adds the elimination bonus, and resets the survival streak.
`totalPlayers` is `len(game.Players)`; `aliveCount` is `game.AliveCount`
before this call. Returns the updated player and the new alive count. -/
def eliminatePlayer (cfg : GameConfig) (totalPlayers aliveCount roundNumber : ℤ)
    (now : ℚ) (p : Player) : Player × ℤ :=
  let alive := aliveCount - 1
  let finalPos := alive + 1
  let bonus := cfg.eliminationBonusMultiplier * (totalPlayers - finalPos)
  ({ p with
      isEliminated := true,
      stats := { p.stats with
        eliminatedAt := some now
        roundsSurvived := roundNumber - 1
        finalPosition := finalPos
        eliminationBonus := p.stats.eliminationBonus + bonus
        score := p.stats.score + bonus
        currentStreak := 0 } },
   alive)

/-- The survival condition of the elimination check (in_game.go
`eliminatePlayersWithLagCompensation`): the truncated grid cell
`(int(X-1), int(Y-1))` is inside the `MapWidth × MapHeight` bounds and holds
the round's target color. -/
def onTargetCell (cfg : GameConfig) (m : List (List ℤ)) (target : ℤ) (p : Player) : Bool :=
  let x := goInt (p.position.x - 1)
  let y := goInt (p.position.y - 1)
  decide (0 ≤ x ∧ x < cfg.mapWidth ∧ 0 ≤ y ∧ y < cfg.mapHeight ∧ mapAt m y x = target)

/-- The player loop of `eliminatePlayersWithLagCompensation` (in_game.go),
threading `game.AliveCount` through successive `eliminatePlayer` calls exactly
as the Go loop does. Returns the updated players, the new alive count, and the
number of players eliminated in this pass (`len(eliminatedPlayers)`). The
lag-compensation window is computed but only logged in this revision, so it has
no state effect. -/
def elimLoop (cfg : GameConfig) (m : List (List ℤ)) (target : ℤ)
    (totalPlayers roundNumber : ℤ) (now : ℚ) :
    List Player → ℤ → List Player × ℤ × ℕ
  | [], alive => ([], alive, 0)
  | p :: ps, alive =>
      if p.isEliminated ∨ p.isSpectator then
        let r := elimLoop cfg m target totalPlayers roundNumber now ps alive
        (p :: r.1, r.2.1, r.2.2)
      else
        if goInt (p.position.x - 1) < 0 ∨ cfg.mapWidth ≤ goInt (p.position.x - 1)
            ∨ goInt (p.position.y - 1) < 0 ∨ cfg.mapHeight ≤ goInt (p.position.y - 1) then
          let pa := eliminatePlayer cfg totalPlayers alive roundNumber now p
          let r := elimLoop cfg m target totalPlayers roundNumber now ps pa.2
          (pa.1 :: r.1, r.2.1, r.2.2 + 1)
        else if mapAt m (goInt (p.position.y - 1)) (goInt (p.position.x - 1)) ≠ target then
          let pa := eliminatePlayer cfg totalPlayers alive roundNumber now p
          let r := elimLoop cfg m target totalPlayers roundNumber now ps pa.2
          (pa.1 :: r.1, r.2.1, r.2.2 + 1)
        else
          let r := elimLoop cfg m target totalPlayers roundNumber now ps alive
          (p :: r.1, r.2.1, r.2.2)

/-- A player the elimination check examines: neither eliminated nor spectator. -/
def checked (p : Player) : Bool := !p.isEliminated && !p.isSpectator

theorem elimLoop_spec (cfg : GameConfig) (m : List (List ℤ)) (target : ℤ)
    (totalPlayers roundNumber : ℤ) (now : ℚ)
    (ps : List Player) (alive : ℤ) :
    List.Forall₂ (fun p q =>
        (checked p = false → q = p)
        ∧ (checked p = true →
            (q.isEliminated = true ↔ onTargetCell cfg m target p = false)))
      ps (elimLoop cfg m target totalPlayers roundNumber now ps alive).1
    ∧ (elimLoop cfg m target totalPlayers roundNumber now ps alive).2.2
        = ps.countP (fun p => checked p && !onTargetCell cfg m target p)
    ∧ (elimLoop cfg m target totalPlayers roundNumber now ps alive).2.1
        = alive - ((elimLoop cfg m target totalPlayers roundNumber now ps alive).2.2 : ℤ) := by
  induction ps generalizing alive with
  | nil => simp [elimLoop]
  | cons p ps ih =>
      by_cases hskip : (p.isEliminated : Prop) ∨ (p.isSpectator : Prop)
      · have hc : checked p = false := by
          unfold checked
          rcases hskip with h | h <;> simp [h]
        rw [elimLoop, if_pos hskip]
        refine ⟨List.Forall₂.cons ⟨fun _ => rfl, fun h => absurd h (by simp [hc])⟩
          (ih alive).1, ?_, (ih alive).2.2⟩
        dsimp only
        rw [(ih alive).2.1, List.countP_cons]
        simp [hc]
      · have hc : checked p = true := by
          unfold checked
          push_neg at hskip
          simp [Bool.not_eq_true] at hskip
          simp [hskip.1, hskip.2]
        rw [elimLoop, if_neg hskip]
        by_cases hob : goInt (p.position.x - 1) < 0 ∨ cfg.mapWidth ≤ goInt (p.position.x - 1)
            ∨ goInt (p.position.y - 1) < 0 ∨ cfg.mapHeight ≤ goInt (p.position.y - 1)
        · have hcell : onTargetCell cfg m target p = false := by
            unfold onTargetCell
            simp only [decide_eq_false_iff_not]
            rintro ⟨hx0, hxW, hy0, hyH, -⟩
            rcases hob with h | h | h | h <;> omega
          rw [if_pos hob]
          refine ⟨List.Forall₂.cons ⟨fun h => absurd h (by simp [hc]),
            fun _ => by simp [eliminatePlayer, hcell]⟩ (ih _).1, ?_, ?_⟩
          · dsimp only
            rw [(ih _).2.1, List.countP_cons]
            simp [hc, hcell]
          · dsimp only
            rw [(ih _).2.2]
            simp [eliminatePlayer]
            ring
        · rw [if_neg hob]
          push_neg at hob
          by_cases hmap : mapAt m (goInt (p.position.y - 1)) (goInt (p.position.x - 1)) ≠ target
          · have hcell : onTargetCell cfg m target p = false := by
              unfold onTargetCell
              simp only [decide_eq_false_iff_not]
              rintro ⟨-, -, -, -, hm⟩
              exact hmap hm
            rw [if_pos hmap]
            refine ⟨List.Forall₂.cons ⟨fun h => absurd h (by simp [hc]),
              fun _ => by simp [eliminatePlayer, hcell]⟩ (ih _).1, ?_, ?_⟩
            · dsimp only
              rw [(ih _).2.1, List.countP_cons]
              simp [hc, hcell]
            · dsimp only
              rw [(ih _).2.2]
              simp [eliminatePlayer]
              ring
          · have hcell : onTargetCell cfg m target p = true := by
              unfold onTargetCell
              push_neg at hmap
              refine decide_eq_true ⟨by omega, by omega, by omega, by omega, hmap⟩
            rw [if_neg hmap]
            have helim : p.isEliminated = false := by
              unfold checked at hc
              simp at hc
              exact hc.1
            refine ⟨List.Forall₂.cons ⟨fun h => absurd h (by simp [hc]),
              fun _ => by simp [helim, hcell]⟩ (ih alive).1, ?_, (ih alive).2.2⟩
            dsimp only
            rw [(ih alive).2.1, List.countP_cons]
            simp [hcell]

theorem countP_split {α : Type} (l : List α) (f g : α → Bool) :
    l.countP f = l.countP (fun x => f x && g x) + l.countP (fun x => f x && !g x) := by
  induction l with
  | nil => rfl
  | cons a l ih =>
      by_cases hf : f a = true <;> by_cases hg : g a = true <;>
        simp [List.countP_cons, hf, hg, ih] <;> omega

/-- `eliminatePlayersWithLagCompensation` (in_game.go): runs the elimination
pass over all players and stores the eliminated count on the mutable current
round cell (`round.EliminatedCount = len(eliminatedPlayers)`).
No-op when there is no current round. -/
def eliminatePlayersWithLagCompensation (g : Game) (now : ℚ) : Game :=
  match g.currentRound with
  | none => g
  | some round =>
      let r := elimLoop g.config g.map round.colorToShow (g.players.length : ℤ)
                 round.number now g.players g.aliveCount
      { g with
          players := r.1
          aliveCount := r.2.1
          currentRound := some { round with eliminatedCount := (r.2.2 : ℤ) } }

/-- C1 (amended: Go's `int(·)` conversion truncates toward zero; it agrees with
flooring exactly when the coordinate minus the offset is nonnegative): at
EliminationCheck, every player that is neither eliminated nor a spectator is
eliminated iff the truncated grid cell (x = int(X−1), y = int(Y−1)) is outside
the MapWidth × MapHeight bounds or its color differs from the round's target
color; afterwards, AliveCount equals the number of checked players whose
truncated cell was in bounds and equal to the target color. -/
theorem c1_elimination_check (g : Game) (now : ℚ) (round : Round)
    (hr : g.currentRound = some round)
    (hinv : g.aliveCount = (g.players.countP fun p => !p.isEliminated : ℕ))
    (hspec : ∀ p ∈ g.players, p.isSpectator = false) :
    List.Forall₂ (fun p q =>
        checked p = true →
          (q.isEliminated = true
            ↔ onTargetCell g.config g.map round.colorToShow p = false))
      g.players (eliminatePlayersWithLagCompensation g now).players
    ∧ (eliminatePlayersWithLagCompensation g now).aliveCount
        = (g.players.countP
            (fun p => checked p && onTargetCell g.config g.map round.colorToShow p) : ℕ) := by
  have hop : eliminatePlayersWithLagCompensation g now =
      { g with
          players := (elimLoop g.config g.map round.colorToShow (g.players.length : ℤ)
            round.number now g.players g.aliveCount).1
          aliveCount := (elimLoop g.config g.map round.colorToShow (g.players.length : ℤ)
            round.number now g.players g.aliveCount).2.1
          currentRound := some { round with
            eliminatedCount := ((elimLoop g.config g.map round.colorToShow
              (g.players.length : ℤ) round.number now g.players g.aliveCount).2.2 : ℤ) } } := by
    rw [eliminatePlayersWithLagCompensation, hr]
  have hs := elimLoop_spec g.config g.map round.colorToShow (g.players.length : ℤ)
    round.number now g.players g.aliveCount
  constructor
  · rw [hop]
    exact hs.1.imp fun a b h => h.2
  · rw [hop]
    have hchk : ∀ p ∈ g.players, (!p.isEliminated) = checked p := by
      intro p hp
      unfold checked
      rw [hspec p hp]
      simp
  -- split the alive players into those passing and those failing the cell check
    have hsplit := countP_split g.players (fun p => !p.isEliminated)
      (fun p => onTargetCell g.config g.map round.colorToShow p)
    have hcongr1 : (g.players.countP fun p =>
        (!p.isEliminated) && onTargetCell g.config g.map round.colorToShow p)
        = g.players.countP
            (fun p => checked p && onTargetCell g.config g.map round.colorToShow p) :=
      List.countP_congr fun p hp => by rw [hchk p hp]
    have hcongr2 : (g.players.countP fun p =>
        (!p.isEliminated) && !onTargetCell g.config g.map round.colorToShow p)
        = g.players.countP
            (fun p => checked p && !onTargetCell g.config g.map round.colorToShow p) :=
      List.countP_congr fun p hp => by rw [hchk p hp]
    rw [hs.2.2, hs.2.1, hinv]
    rw [hcongr1, hcongr2] at hsplit
    rw [hsplit]
    push_cast
    ring

/-- 2×2 map used by the C1 witness: target color 14 at (0,0) and (1,1). -/
def mapC1 : List (List ℤ) := [[14, 0], [0, 14]]

/-- A 2×2 configuration for the C1 witness. -/
def cfgC1 : GameConfig := { defaultConfig with mapWidth := 2, mapHeight := 2 }

/-- Witness player standing on the target color. -/
def pOnTarget : Player :=
  { id := "a", name := "a", position := ⟨3/2, 3/2⟩ }

/-- Witness player standing on a wrong color. -/
def pOffTarget : Player :=
  { id := "b", name := "b", position := ⟨5/2, 3/2⟩ }

/-- The current round used by the C1 witness. -/
def roundC1 : Round :=
  { number := 1, phase := .eliminationCheck, startTime := 0, colorToShow := 14,
    rushDuration := 4 }

/-- The concrete game state used by the C1 witness. -/
def gC1 : Game :=
  { phase := .inGame, players := [pOnTarget, pOffTarget], playerCount := 2,
    aliveCount := 2, rounds := [roundC1], currentRound := some roundC1,
    map := mapC1, config := cfgC1 }

/-- Witness for C1: in `gC1`, the hypotheses hold and the theorem applies;
player a (cell (0,0) = 14) survives, player b (cell (1,0) = 0 ≠ 14) does not. -/
theorem c1_elimination_check_witness :
    gC1.currentRound = some roundC1
    ∧ gC1.aliveCount = (gC1.players.countP fun p => !p.isEliminated : ℕ)
    ∧ (∀ p ∈ gC1.players, p.isSpectator = false)
    ∧ List.Forall₂ (fun p q =>
        checked p = true →
          (q.isEliminated = true
            ↔ onTargetCell gC1.config gC1.map roundC1.colorToShow p = false))
      gC1.players (eliminatePlayersWithLagCompensation gC1 0).players
    ∧ (eliminatePlayersWithLagCompensation gC1 0).aliveCount
        = (gC1.players.countP
            (fun p => checked p && onTargetCell gC1.config gC1.map roundC1.colorToShow p) : ℕ) := by
  have hspec : ∀ p ∈ gC1.players, p.isSpectator = false := by
    intro p hp
    simp only [gC1, List.mem_cons, List.not_mem_nil, or_false] at hp
    rcases hp with rfl | rfl <;> rfl
  refine ⟨rfl, by rfl, hspec, ?_, ?_⟩
  · exact (c1_elimination_check gC1 0 roundC1 rfl (by rfl) hspec).1
  · exact (c1_elimination_check gC1 0 roundC1 rfl (by rfl) hspec).2

/-- Player at X = 0.5: the floored cell ⌊X−1⌋ = −1 is out of bounds, but Go's
truncation gives cell 0. -/
def pHalf : Player :=
  { id := "c", name := "c", position := ⟨1/2, 3/2⟩ }

/-- Game state refuting the floor-based reading of C1. -/
def gHalf : Game :=
  { phase := .inGame, players := [pHalf], playerCount := 1,
    aliveCount := 1, rounds := [roundC1], currentRound := some roundC1,
    map := [[14, 0], [14, 0]], config := cfgC1 }

/-- Counterexample to C1 as stated: `pHalf` is checked, its floored cell
x = ⌊0.5 − 1⌋ = −1 is outside the bounds, so the claim says the player is
eliminated — but the code (which truncates toward zero, giving cell (0,1) with
the target color) keeps the player alive. -/
theorem c1_floor_counterexample :
    checked pHalf = true
    ∧ ⌊(pHalf.position.x - 1 : ℚ)⌋ < 0
    ∧ (eliminatePlayersWithLagCompensation gHalf 0).players.map Player.isEliminated
        = [false] := by
  refine ⟨rfl, ?_, ?_⟩
  · norm_num [pHalf]
  · have hx : goInt ((1/2 : ℚ) - 1) = 0 := by norm_num [goInt]
    have hy : goInt ((3/2 : ℚ) - 1) = 0 := by norm_num [goInt]
    simp only [eliminatePlayersWithLagCompensation, gHalf, elimLoop, pHalf, roundC1, cfgC1,
      defaultConfig, mapAt, hx, hy]
    norm_num [goInt, checked, elimLoop]

/-- Association-list lookup modelling `game.Players[userID]` presence. -/
def findById : List Player → String → Option Player
  | [], _ => none
  | p :: ps, i => if p.id = i then some p else findById ps i

/-- `JoinGame` (handler): creates the player record (center position 128,128;
`JoinedRound = len(game.Rounds)+1`; zero value for unset fields) and appends it,
incrementing PlayerCount and AliveCount. The HTTP guards (missing parameters,
unknown game, duplicate player, phase ≠ PreGame) are preconditions of the
`Step.join` rule. -/
def joinGame (g : Game) (userID uname : String) (now : ℚ) : Game :=
  let player : Player :=
    { id := userID, name := uname, position := ⟨128, 128⟩,
      isSpectator := false, isEliminated := false,
      joinedRound := (g.rounds.length : ℤ) + 1, lastUpdate := now,
      lastValidPosition := ⟨0, 0⟩, lastMoveTime := 0, movementSpeed := 0, stats := {} }
  { g with players := g.players ++ [player],
           playerCount := g.playerCount + 1,
           aliveCount := g.aliveCount + 1 }

/-- `initializeAllPlayerStats` (pre-game handler), per player: fresh movement
tracking and all-zero stats; combined with the spawn position assigned by
`assignSpawnPositions` (the random shuffle is abstracted as `pos`). -/
def initializePlayer (cfg : GameConfig) (now : ℚ) (pos : Position) (p : Player) : Player :=
  { p with
      position := pos
      lastValidPosition := pos
      lastUpdate := now
      lastMoveTime := now
      movementSpeed := cfg.baseMovementSpeed
      stats := {} }

/-- `startNewRound` (in_game.go): the new round gets number `len(Rounds)+1`,
phase ColorCall, a 1-second countdown, the rush duration from the timing table
and the (randomly drawn) target color; it becomes the current round and a value
copy is appended to the rounds log. -/
def startNewRound (g : Game) (color : ℤ) (now : ℚ) : Game :=
  let round : Round :=
    { number := (g.rounds.length : ℤ) + 1, phase := .colorCall, countdownTime := 1,
      startTime := now, endTime := none, colorToShow := color,
      rushDuration := calculateRushDuration g.config ((g.rounds.length : ℤ) + 1),
      eliminatedCount := 0 }
  { g with currentRound := some round, rounds := g.rounds ++ [round] }

/-- `startGame` (pre-game handler): enter InGame, assign spawn positions and
reset stats, then start the first round. -/
def startGame (g : Game) (posAssign : Player → Position) (color : ℤ) (now : ℚ) : Game :=
  startNewRound
    { g with
        phase := .inGame
        players := g.players.map fun p => initializePlayer g.config now (posAssign p) p }
    color now

/-- Go map lookup `game.Config.StreakBonuses[streak]`. -/
def lookupStreak : List (ℤ × ℤ) → ℤ → Option ℤ
  | [], _ => none
  | (k, v) :: rest, n => if k = n then some v else lookupStreak rest n

/-- The streak block at the end of the `calculateRoundScores` loop body
(in_game.go): increment CurrentStreak, raise LongestStreak if passed, apply the
configured streak bonus, and track the 3/5/10 streak counts. -/
def streakUpdate (cfg : GameConfig) (s2 : PlayerStats) : PlayerStats :=
  let s3 : PlayerStats := { s2 with currentStreak := s2.currentStreak + 1 }
  let s4 : PlayerStats := if s3.longestStreak < s3.currentStreak
            then { s3 with longestStreak := s3.currentStreak } else s3
  match lookupStreak cfg.streakBonuses s4.currentStreak with
  | some b =>
      let sb : PlayerStats := { s4 with
        streakBonuses := s4.streakBonuses + b
        score := s4.score + b }
      if sb.currentStreak = 3 then { sb with threeStreakCount := sb.threeStreakCount + 1 }
      else if sb.currentStreak = 5 then { sb with fiveStreakCount := sb.fiveStreakCount + 1 }
      else if sb.currentStreak = 10 then { sb with tenStreakCount := sb.tenStreakCount + 1 }
      else sb
  | none => s4

theorem streakUpdate_spec (cfg : GameConfig) (s2 : PlayerStats) :
    (streakUpdate cfg s2).score
        = s2.score + (lookupStreak cfg.streakBonuses (s2.currentStreak + 1)).getD 0
    ∧ (streakUpdate cfg s2).speedBonuses = s2.speedBonuses
    ∧ (streakUpdate cfg s2).survivalPoints = s2.survivalPoints
    ∧ (streakUpdate cfg s2).perfectRounds = s2.perfectRounds := by
  unfold streakUpdate
  dsimp only
  by_cases hl : s2.longestStreak < s2.currentStreak + 1 <;>
    [rw [if_pos hl]; rw [if_neg hl]] <;>
    cases hls : lookupStreak cfg.streakBonuses (s2.currentStreak + 1) <;>
      dsimp only <;>
      [skip; skip;
        by_cases h3 : s2.currentStreak + 1 = 3;
        by_cases h3 : s2.currentStreak + 1 = 3] <;>
      simp_all <;>
      split_ifs <;>
      simp

/-- The per-player body of `calculateRoundScores` (in_game.go): survival
points, the response-time bookkeeping with the perfect/speed bonuses decided by
the remaining rush time, the streak update, streak bonuses, and
`RoundsSurvived = round.Number`. -/
def scorePlayer (cfg : GameConfig) (round : Round) (p : Player) : Player :=
  if p.isEliminated ∨ p.isSpectator then p
  else
    let s1 : PlayerStats := { p.stats with
      survivalPoints := p.stats.survivalPoints + cfg.survivalPointsPerRound
      score := p.stats.score + cfg.survivalPointsPerRound }
    let responseTime := p.lastUpdate - (round.startTime + 1)
    let s2 : PlayerStats :=
      if 0 < responseTime ∧ responseTime < round.rushDuration then
        let avg := if s1.averageResponseTime = 0 then responseTime
                   else (s1.averageResponseTime + responseTime) / 2
        let s1a : PlayerStats := { s1 with averageResponseTime := avg }
        if cfg.perfectBonusThreshold < round.rushDuration - responseTime then
          { s1a with
              speedBonuses := s1a.speedBonuses + cfg.perfectBonusPoints
              score := s1a.score + cfg.perfectBonusPoints
              perfectRounds := s1a.perfectRounds + 1 }
        else if cfg.speedBonusThreshold < round.rushDuration - responseTime then
          { s1a with
              speedBonuses := s1a.speedBonuses + cfg.speedBonusPoints
              score := s1a.score + cfg.speedBonusPoints }
        else s1a
      else s1
    { p with stats := { streakUpdate cfg s2 with roundsSurvived := round.number } }

/-- `calculateRoundScores` (in_game.go): applies `scorePlayer` to every player
(the loop skips eliminated players and spectators inside `scorePlayer`). -/
def calculateRoundScores (g : Game) (round : Round) : Game :=
  { g with players := g.players.map (scorePlayer g.config round) }

/-- The `movement_rejected` message of `sendMovementRejection` (in_game.go),
addressed to `game.Clients[player.ID]` — hence tagged with the player id. -/
structure Rejection where
  playerId : String
  reason : String
  speed : ℚ
  maxSpeed : ℚ
  resetPosition : Position
deriving DecidableEq, Repr

/-- Lookup in `game.PlayerPositionHistory`. -/
def histGet : List (String × Position) → String → Option Position
  | [], _ => none
  | (k, v) :: rest, i => if k = i then some v else histGet rest i

/-- Write to `game.PlayerPositionHistory`. -/
def histSet : List (String × Position) → String → Position → List (String × Position)
  | [], i, v => [(i, v)]
  | (k, w) :: rest, i, v => if k = i then (k, v) :: rest else (k, w) :: histSet rest i v

/-- The per-player body of `validatePlayerMovements` (in_game.go).  `sqrtFn`
models `math.Sqrt`, applied to `Δx² + Δy²`.  Returns the updated player, the
updated position history, and the rejection message, if any. -/
def validateOne (cfg : GameConfig) (sqrtFn : ℚ → ℚ) (now : ℚ)
    (hist : List (String × Position)) (p : Player) :
    Player × List (String × Position) × Option Rejection :=
  if p.isEliminated ∨ p.isSpectator then (p, hist, none)
  else
    match histGet hist p.id with
    | none => ({ p with lastValidPosition := p.position },
               histSet hist p.id p.position, none)
    | some prev =>
        if p.lastUpdate = 0 then
          ({ p with lastValidPosition := p.position },
           histSet hist p.id p.position, none)
        else
          if now - p.lastUpdate ≤ 0 then (p, hist, none)
          else
            if p.position.x < 1 ∨ 21 < p.position.x ∨ p.position.y < 1 ∨ 21 < p.position.y then
              ({ p with position := p.lastValidPosition }, hist,
               some ⟨p.id, "out_of_bounds",
                 sqrtFn ((p.position.x - prev.x) * (p.position.x - prev.x)
                   + (p.position.y - prev.y) * (p.position.y - prev.y)) / (now - p.lastUpdate),
                 cfg.maxMovementSpeed, p.lastValidPosition⟩)
            else if cfg.maxMovementSpeed * (now - p.lastUpdate) * (11/10)
                < sqrtFn ((p.position.x - prev.x) * (p.position.x - prev.x)
                    + (p.position.y - prev.y) * (p.position.y - prev.y)) then
              ({ p with position := p.lastValidPosition }, hist,
               some ⟨p.id, "teleportation_detected",
                 sqrtFn ((p.position.x - prev.x) * (p.position.x - prev.x)
                   + (p.position.y - prev.y) * (p.position.y - prev.y)) / (now - p.lastUpdate),
                 cfg.maxMovementSpeed, p.lastValidPosition⟩)
            else if cfg.maxMovementSpeed * (21/20)
                < sqrtFn ((p.position.x - prev.x) * (p.position.x - prev.x)
                    + (p.position.y - prev.y) * (p.position.y - prev.y)) / (now - p.lastUpdate) then
              ({ p with position := p.lastValidPosition }, hist,
               some ⟨p.id, "movement_too_fast",
                 sqrtFn ((p.position.x - prev.x) * (p.position.x - prev.x)
                   + (p.position.y - prev.y) * (p.position.y - prev.y)) / (now - p.lastUpdate),
                 cfg.maxMovementSpeed, p.lastValidPosition⟩)
            else
              ({ p with
                  lastValidPosition := p.position
                  lastMoveTime := now
                  stats := { p.stats with
                    totalDistance := p.stats.totalDistance
                      + sqrtFn ((p.position.x - prev.x) * (p.position.x - prev.x)
                          + (p.position.y - prev.y) * (p.position.y - prev.y)) } },
               histSet hist p.id p.position, none)

/-- The player loop of `validatePlayerMovements` (in_game.go), threading the
position history. -/
def valLoop (cfg : GameConfig) (sqrtFn : ℚ → ℚ) (now : ℚ) :
    List Player → List (String × Position) →
    List Player × List (String × Position) × List Rejection
  | [], h => ([], h, [])
  | p :: ps, h =>
      let r1 := validateOne cfg sqrtFn now h p
      let r := valLoop cfg sqrtFn now ps r1.2.1
      (r1.1 :: r.1, r.2.1,
        match r1.2.2 with
        | some rej => rej :: r.2.2
        | none => r.2.2)

/-- `validatePlayerMovements` (in_game.go): validates all players, updating the
position history, and collects the rejection messages sent to clients. -/
def validatePlayerMovements (g : Game) (sqrtFn : ℚ → ℚ) (now : ℚ) :
    Game × List Rejection :=
  let r := valLoop g.config sqrtFn now g.players g.positionHistory
  ({ g with players := r.1, positionHistory := r.2.1 }, r.2.2)

/-- The swap condition of the double loop in `resolveTiebreakers` (in_game.go):
`beats a b` holds when `a` ranks strictly better than `b` — higher score, then
more rounds survived, then lower average response time. -/
def beats (a b : Player) : Bool :=
  decide (b.stats.score < a.stats.score
    ∨ (a.stats.score = b.stats.score ∧ b.stats.roundsSurvived < a.stats.roundsSurvived)
    ∨ (a.stats.score = b.stats.score ∧ a.stats.roundsSurvived = b.stats.roundsSurvived
        ∧ a.stats.averageResponseTime < b.stats.averageResponseTime))

/-- The inner loop of the exchange sort in `resolveTiebreakers`: scans the tail
with the current slot-`i` occupant, swapping whenever a later player beats it.
Returns the final slot-`i` occupant and the rewritten tail. -/
def selInner {α : Type} (better : α → α → Bool) : α → List α → α × List α
  | cur, [] => (cur, [])
  | cur, x :: xs =>
      if better x cur then
        let r := selInner better x xs
        (r.1, cur :: r.2)
      else
        let r := selInner better cur xs
        (r.1, x :: r.2)

theorem selInner_length {α : Type} (better : α → α → Bool) (cur : α) (l : List α) :
    (selInner better cur l).2.length = l.length := by
  induction l generalizing cur with
  | nil => rfl
  | cons x xs ih =>
      rw [selInner]
      by_cases h : better x cur = true
      · rw [if_pos h]; simpa using ih x
      · rw [if_neg h]; simpa using ih cur

/-- The outer loop of the exchange sort in `resolveTiebreakers`. -/
def selSort {α : Type} (better : α → α → Bool) : List α → List α
  | [] => []
  | x :: xs =>
      let r := selInner better x xs
      r.1 :: selSort better r.2
termination_by l => l.length
decreasing_by
  simp only [selInner_length, List.length_cons]
  omega

/-- `resolveTiebreakers` (in_game.go): sort the survivors by the tie-break
criteria, then assign `FinalPosition = i+1`, `RoundsSurvived = len(Rounds)`,
and the winner bonus to index 0 only. -/
def resolveTiebreakers (cfg : GameConfig) (totalRounds : ℕ) (alive : List Player) :
    List Player :=
  ((selSort beats alive).enum).map fun ip =>
    let s : PlayerStats := { ip.2.stats with
      finalPosition := (ip.1 : ℤ) + 1
      roundsSurvived := (totalRounds : ℤ) }
    if ip.1 = 0 then { ip.2 with stats := { s with score := s.score + cfg.finalWinnerBonus } }
    else { ip.2 with stats := s }

/-- The endurance-bonus mutation in `calculateFinalRankings` (in_game.go). -/
def addEndurance (cfg : GameConfig) (p : Player) : Player :=
  { p with stats := { p.stats with score := p.stats.score + cfg.enduranceBonus } }

/-- The alive players of `calculateFinalRankings` (in_game.go) after the
endurance bonus (granted when at least 25 rounds were played). -/
def enduredAlive (g : Game) : List Player :=
  if 25 ≤ g.rounds.length then
    (g.players.filter fun p => !p.isEliminated).map (addEndurance g.config)
  else g.players.filter fun p => !p.isEliminated

/-- The transformed alive players of `calculateFinalRankings` (in_game.go):
a single survivor is crowned (FinalPosition 1, RoundsSurvived = len(Rounds),
winner bonus); several survivors go through `resolveTiebreakers`; no survivors
is a no-op. -/
def finalAliveList (g : Game) : List Player :=
  if (enduredAlive g).length = 1 then
    (enduredAlive g).map fun w =>
      { w with stats := { w.stats with
          finalPosition := 1
          roundsSurvived := (g.rounds.length : ℤ)
          score := w.stats.score + g.config.finalWinnerBonus } }
  else if 1 < (enduredAlive g).length then
    resolveTiebreakers g.config g.rounds.length (enduredAlive g)
  else enduredAlive g

/-- `calculateFinalRankings` (in_game.go). The Go code mutates the shared
`*Player` records reached through the `alivePlayers` slice; with value
semantics this is the merge of `finalAliveList` back into the registry by
player id. -/
def calculateFinalRankings (g : Game) : Game :=
  { g with players := g.players.map fun p =>
      if p.isEliminated then p else (findById (finalAliveList g) p.id).getD p }

/-- Modelled from the spec: `transitionToSettlement` is called by `endGame`
(in_game.go) but its body is not among the sources; §4.3 of the spec says the
game moves to the Settlement phase there. Only the phase flip is modelled. -/
def transitionToSettlement (g : Game) : Game :=
  { g with phase := .settlement }

/-- `endGame` (in_game.go): stop the ticker, compute the final rankings,
broadcast, and transition to settlement. -/
def endGame (g : Game) : Game :=
  transitionToSettlement (calculateFinalRankings g)

/-- `finishRound` (in_game.go): stamp the current round's end time (on the
mutable current-round cell), then end the game when at most one player is alive
or 25 rounds were played; otherwise the next round is scheduled (a separate
`Step`). -/
def finishRound (g : Game) (now : ℚ) : Game :=
  match g.currentRound with
  | none => g
  | some round =>
      let g1 := { g with currentRound := some { round with endTime := some now } }
      if g.aliveCount ≤ 1 ∨ 25 ≤ round.number then endGame g1 else g1

/-- `processRoundTiming` (in_game.go): the four phase transitions, driven by
the elapsed time since the round started. Writes only the mutable current
round, never the `rounds` log. -/
def processRoundTiming (g : Game) (now : ℚ) : Game :=
  match g.currentRound with
  | none => g
  | some round =>
      let elapsedTime := now - round.startTime
      match round.phase with
      | .colorCall =>
          if 1 ≤ elapsedTime then
            { g with currentRound := some { round with phase := .rushPhase } }
          else g
      | .rushPhase =>
          if round.rushDuration - (elapsedTime - 1) ≤ 0 then
            eliminatePlayersWithLagCompensation
              { g with currentRound := some { round with phase := .eliminationCheck } } now
          else g
      | .eliminationCheck =>
          if 1/2 ≤ elapsedTime - 1 - round.rushDuration then
            calculateRoundScores
              { g with currentRound := some { round with phase := .roundTransition } }
              { round with phase := .roundTransition }
          else g
      | .roundTransition =>
          if 1 ≤ elapsedTime - 1 - round.rushDuration - 1/2 then
            finishRound g now
          else g

/-- The empty game built by `NewGame` (new_game.go): PreGame, no players,
no rounds, fresh map. -/
def newGame (cfg : GameConfig) (m : List (List ℤ)) : Game :=
  { phase := .preGame, players := [], playerCount := 0, aliveCount := 0,
    rounds := [], currentRound := none, map := m, positionHistory := [],
    config := cfg }

/-- One observable mutation of a game, as performed by the handlers. Random
inputs (target color, spawn shuffle, `math.Sqrt`) and clock reads are
universally quantified parameters. -/
inductive Step : Game → Game → Prop
  | join (g : Game) (uid uname : String) (now : ℚ)
      (hphase : g.phase = .preGame) (hfresh : findById g.players uid = none) :
      Step g (joinGame g uid uname now)
  | startG (g : Game) (posAssign : Player → Position) (color : ℤ) (now : ℚ)
      (hphase : g.phase = .preGame) :
      Step g (startGame g posAssign color now)
  | timing (g : Game) (now : ℚ) (hphase : g.phase = .inGame) :
      Step g (processRoundTiming g now)
  | validate (g : Game) (sqrtFn : ℚ → ℚ) (now : ℚ) (hphase : g.phase = .inGame) :
      Step g (validatePlayerMovements g sqrtFn now).1
  | nextRound (g : Game) (color : ℤ) (now : ℚ) (hphase : g.phase = .inGame) :
      Step g (startNewRound g color now)
  | endG (g : Game) (hphase : g.phase = .inGame) :
      Step g (endGame g)

/-- Game states reachable from a fresh `NewGame` by handler steps. -/
inductive Reachable : Game → Prop
  | init (cfg : GameConfig) (m : List (List ℤ)) : Reachable (newGame cfg m)
  | step {g g' : Game} : Reachable g → Step g g' → Reachable g'

/-- The `aliveCount` bookkeeping invariant. -/
def aliveInv (g : Game) : Prop :=
  g.aliveCount = (g.players.countP fun p => !p.isEliminated : ℕ)

theorem elimLoop_countAlive (cfg : GameConfig) (m : List (List ℤ)) (target : ℤ)
    (totalPlayers roundNumber : ℤ) (now : ℚ) (ps : List Player) (alive : ℤ) :
    (elimLoop cfg m target totalPlayers roundNumber now ps alive).1.countP
        (fun q => !q.isEliminated)
      + (elimLoop cfg m target totalPlayers roundNumber now ps alive).2.2
      = ps.countP (fun p => !p.isEliminated) := by
  induction ps generalizing alive with
  | nil => simp [elimLoop]
  | cons p ps ih =>
      by_cases hskip : (p.isEliminated : Prop) ∨ (p.isSpectator : Prop)
      · rw [elimLoop, if_pos hskip]
        dsimp only
        have := ih alive
        by_cases he : p.isEliminated = true <;> simp [List.countP_cons, he] <;> omega
      · rw [elimLoop, if_neg hskip]
        have he : p.isEliminated = false := by
          cases hb : p.isEliminated
          · rfl
          · exact absurd (Or.inl hb) hskip
        by_cases hob : goInt (p.position.x - 1) < 0 ∨ cfg.mapWidth ≤ goInt (p.position.x - 1)
            ∨ goInt (p.position.y - 1) < 0 ∨ cfg.mapHeight ≤ goInt (p.position.y - 1)
        · rw [if_pos hob]
          dsimp only
          have := ih (eliminatePlayer cfg totalPlayers alive roundNumber now p).2
          simp only [List.countP_cons, eliminatePlayer, he] at this ⊢
          simp at this ⊢
          omega
        · rw [if_neg hob]
          by_cases hmap : mapAt m (goInt (p.position.y - 1)) (goInt (p.position.x - 1)) ≠ target
          · rw [if_pos hmap]
            dsimp only
            have := ih (eliminatePlayer cfg totalPlayers alive roundNumber now p).2
            simp only [List.countP_cons, eliminatePlayer, he] at this ⊢
            simp at this ⊢
            omega
          · rw [if_neg hmap]
            dsimp only
            have := ih alive
            simp [List.countP_cons, he] at this ⊢
            omega

theorem aliveInv_elimCheck {g : Game} (now : ℚ) (h : aliveInv g) :
    aliveInv (eliminatePlayersWithLagCompensation g now) := by
  cases hr : g.currentRound with
  | none => rw [eliminatePlayersWithLagCompensation, hr]; exact h
  | some round =>
      rw [eliminatePlayersWithLagCompensation, hr]
      unfold aliveInv at h ⊢
      dsimp only
      have h1 := elimLoop_countAlive g.config g.map round.colorToShow (g.players.length : ℤ)
        round.number now g.players g.aliveCount
      have h2 := (elimLoop_spec g.config g.map round.colorToShow (g.players.length : ℤ)
        round.number now g.players g.aliveCount).2.2
      rw [h2]
      omega

theorem countP_alive_map {l : List Player} {f : Player → Player}
    (hf : ∀ p, (f p).isEliminated = p.isEliminated) :
    ((l.map f).countP fun q => !q.isEliminated) = l.countP fun p => !p.isEliminated := by
  rw [List.countP_map]
  exact List.countP_congr fun p _ => by simp [Function.comp, hf]

theorem aliveInv_join {g : Game} (uid uname : String) (now : ℚ) (h : aliveInv g) :
    aliveInv (joinGame g uid uname now) := by
  unfold aliveInv at h ⊢
  simp [joinGame, List.countP_append, List.countP_cons]
  omega

theorem aliveInv_startGame {g : Game} (posAssign : Player → Position) (color : ℤ) (now : ℚ)
    (h : aliveInv g) : aliveInv (startGame g posAssign color now) := by
  unfold aliveInv at h ⊢
  simp only [startGame, startNewRound]
  rw [countP_alive_map
    (f := fun p => initializePlayer g.config now (posAssign p) p) (fun p => rfl)]
  exact h

theorem aliveInv_scores {g : Game} (round : Round) (h : aliveInv g) :
    aliveInv (calculateRoundScores g round) := by
  unfold aliveInv at h ⊢
  rw [calculateRoundScores]
  dsimp only
  have hf : ∀ p : Player, (scorePlayer g.config round p).isEliminated = p.isEliminated := by
    intro p
    unfold scorePlayer
    by_cases hp : (p.isEliminated : Prop) ∨ (p.isSpectator : Prop)
    · rw [if_pos hp]
    · rw [if_neg hp]
  rw [countP_alive_map hf]
  exact h

theorem findById_mem {l : List Player} {i : String} {q : Player}
    (h : findById l i = some q) : q ∈ l := by
  induction l with
  | nil => cases h
  | cons p ps ih =>
      rw [findById] at h
      by_cases hp : p.id = i
      · rw [if_pos hp] at h
        injection h with h2
        rw [← h2]
        exact List.mem_cons_self p ps
      · rw [if_neg hp] at h
        exact List.mem_cons_of_mem p (ih h)

theorem mem_enum_snd {α : Type} {l : List α} {ip : ℕ × α} (h : ip ∈ l.enum) : ip.2 ∈ l :=
  List.get?_mem (List.mem_enum_iff_get?.mp h)

theorem selInner_perm {α : Type} (better : α → α → Bool) (cur : α) (l : List α) :
    List.Perm ((selInner better cur l).1 :: (selInner better cur l).2) (cur :: l) := by
  induction l generalizing cur with
  | nil => rfl
  | cons x xs ih =>
      rw [selInner]
      by_cases h : better x cur = true
      · rw [if_pos h]
        dsimp only
        exact (List.Perm.swap cur (selInner better x xs).1 (selInner better x xs).2).trans
          ((ih x).cons cur)
      · rw [if_neg h]
        dsimp only
        exact (List.Perm.swap x (selInner better cur xs).1 (selInner better cur xs).2).trans
          (((ih cur).cons x).trans (List.Perm.swap cur x xs))

theorem selSort_perm {α : Type} (better : α → α → Bool) : (l : List α) →
    List.Perm (selSort better l) l
  | [] => by rw [selSort]
  | x :: xs => by
      rw [selSort]
      have hrec := selSort_perm better (selInner better x xs).2
      exact (hrec.cons (selInner better x xs).1).trans (selInner_perm better x xs)
termination_by l => l.length
decreasing_by
  simp only [selInner_length, List.length_cons]
  omega

theorem resolveTiebreakers_not_eliminated {cfg : GameConfig} {n : ℕ} {alive : List Player}
    (halive : ∀ p ∈ alive, p.isEliminated = false) :
    ∀ q ∈ resolveTiebreakers cfg n alive, q.isEliminated = false := by
  intro q hq
  unfold resolveTiebreakers at hq
  rcases List.mem_map.mp hq with ⟨ip, hip, rfl⟩
  have hmem : ip.2 ∈ selSort beats alive := mem_enum_snd hip
  have hmem2 : ip.2 ∈ alive := (selSort_perm beats alive).mem_iff.mp hmem
  have := halive ip.2 hmem2
  by_cases h0 : ip.1 = 0 <;> simp [h0, this]

theorem enduredAlive_not_eliminated (g : Game) :
    ∀ q ∈ enduredAlive g, q.isEliminated = false := by
  intro q hq
  unfold enduredAlive at hq
  by_cases h25 : 25 ≤ g.rounds.length
  · rw [if_pos h25] at hq
    rcases List.mem_map.mp hq with ⟨p, hp, rfl⟩
    have := (List.mem_filter.mp hp).2
    simp [addEndurance]
    simpa using this
  · rw [if_neg h25] at hq
    have := (List.mem_filter.mp hq).2
    simpa using this

theorem finalAliveList_not_eliminated (g : Game) :
    ∀ q ∈ finalAliveList g, q.isEliminated = false := by
  intro q hq
  unfold finalAliveList at hq
  by_cases h1 : (enduredAlive g).length = 1
  · rw [if_pos h1] at hq
    rcases List.mem_map.mp hq with ⟨p, hp, rfl⟩
    simpa using enduredAlive_not_eliminated g p hp
  · rw [if_neg h1] at hq
    by_cases h2 : 1 < (enduredAlive g).length
    · rw [if_pos h2] at hq
      exact resolveTiebreakers_not_eliminated (enduredAlive_not_eliminated g) q hq
    · rw [if_neg h2] at hq
      exact enduredAlive_not_eliminated g q hq

theorem aliveInv_rankings {g : Game} (h : aliveInv g) :
    aliveInv (calculateFinalRankings g) := by
  unfold aliveInv at h ⊢
  rw [calculateFinalRankings]
  dsimp only
  have hf : ∀ p : Player,
      ((if p.isEliminated then p else (findById (finalAliveList g) p.id).getD p) :
        Player).isEliminated = p.isEliminated := by
    intro p
    by_cases hp : p.isEliminated = true
    · rw [if_pos hp]
    · rw [if_neg hp]
      cases hfind : findById (finalAliveList g) p.id with
      | none => rfl
      | some q =>
          simp only [Option.getD_some]
          rw [finalAliveList_not_eliminated g q (findById_mem hfind)]
          simp at hp
          rw [hp]
  rw [countP_alive_map hf]
  exact h

theorem aliveInv_endGame {g : Game} (h : aliveInv g) : aliveInv (endGame g) := by
  rw [endGame, transitionToSettlement]
  exact aliveInv_rankings h

theorem aliveInv_finishRound {g : Game} (now : ℚ) (h : aliveInv g) :
    aliveInv (finishRound g now) := by
  rw [finishRound]
  cases hr : g.currentRound with
  | none => exact h
  | some round =>
      dsimp only
      by_cases hc : g.aliveCount ≤ 1 ∨ 25 ≤ round.number
      · rw [if_pos hc]
        exact aliveInv_endGame h
      · rw [if_neg hc]
        exact h

theorem aliveInv_timing {g : Game} (now : ℚ) (h : aliveInv g) :
    aliveInv (processRoundTiming g now) := by
  rw [processRoundTiming]
  cases hr : g.currentRound with
  | none => exact h
  | some round =>
      dsimp only
      cases round.phase
      · dsimp only
        by_cases hc : 1 ≤ now - round.startTime
        · rw [if_pos hc]; exact h
        · rw [if_neg hc]; exact h
      · dsimp only
        by_cases hc : round.rushDuration - (now - round.startTime - 1) ≤ 0
        · rw [if_pos hc]; exact aliveInv_elimCheck now h
        · rw [if_neg hc]; exact h
      · dsimp only
        by_cases hc : 1/2 ≤ now - round.startTime - 1 - round.rushDuration
        · rw [if_pos hc]; exact aliveInv_scores _ h
        · rw [if_neg hc]; exact h
      · dsimp only
        by_cases hc : 1 ≤ now - round.startTime - 1 - round.rushDuration - 1/2
        · rw [if_pos hc]; exact aliveInv_finishRound now h
        · rw [if_neg hc]; exact h

theorem validateOne_isEliminated (cfg : GameConfig) (sqrtFn : ℚ → ℚ) (now : ℚ)
    (hist : List (String × Position)) (p : Player) :
    (validateOne cfg sqrtFn now hist p).1.isEliminated = p.isEliminated := by
  unfold validateOne
  repeat' split <;> try rfl

theorem valLoop_countAlive (cfg : GameConfig) (sqrtFn : ℚ → ℚ) (now : ℚ)
    (ps : List Player) (h : List (String × Position)) :
    (valLoop cfg sqrtFn now ps h).1.countP (fun q => !q.isEliminated)
      = ps.countP fun p => !p.isEliminated := by
  induction ps generalizing h with
  | nil => rfl
  | cons p ps ih =>
      rw [valLoop]
      dsimp only
      rw [List.countP_cons, List.countP_cons, validateOne_isEliminated, ih]

theorem aliveInv_validate {g : Game} (sqrtFn : ℚ → ℚ) (now : ℚ) (h : aliveInv g) :
    aliveInv (validatePlayerMovements g sqrtFn now).1 := by
  unfold aliveInv at h ⊢
  rw [validatePlayerMovements]
  dsimp only
  rw [valLoop_countAlive]
  exact h

theorem reachable_aliveInv {g : Game} (h : Reachable g) : aliveInv g := by
  induction h with
  | init cfg m => simp [aliveInv, newGame]
  | step hr hs ih =>
      cases hs with
      | join uid uname now hphase hfresh => exact aliveInv_join uid uname now ih
      | startG posAssign color now hphase => exact aliveInv_startGame posAssign color now ih
      | timing now hphase => exact aliveInv_timing now ih
      | validate sqrtFn now hphase => exact aliveInv_validate sqrtFn now ih
      | nextRound color now hphase => exact ih
      | endG hphase => exact aliveInv_endGame ih

/-- C2: in every reachable game state, AliveCount equals the number of
non-eliminated players, and each player-touching operation — join, the
elimination pass, round scoring, settlement ranking — preserves the
equality. -/
theorem c2_alive_count (g : Game) :
    (Reachable g → aliveInv g)
    ∧ (∀ uid uname now, aliveInv g → aliveInv (joinGame g uid uname now))
    ∧ (∀ now, aliveInv g → aliveInv (eliminatePlayersWithLagCompensation g now))
    ∧ (∀ round, aliveInv g → aliveInv (calculateRoundScores g round))
    ∧ (aliveInv g → aliveInv (calculateFinalRankings g)) :=
  ⟨fun h => reachable_aliveInv h,
   fun uid uname now h => aliveInv_join uid uname now h,
   fun now h => aliveInv_elimCheck now h,
   fun round h => aliveInv_scores round h,
   fun h => aliveInv_rankings h⟩

/-- Witness for C2: the state after one player joins a fresh game is reachable
and satisfies the invariant there, and the join from the empty state preserved
it. -/
theorem c2_alive_count_witness :
    aliveInv (joinGame (newGame defaultConfig mapC1) "u1" "ann" 0) :=
  (c2_alive_count (joinGame (newGame defaultConfig mapC1) "u1" "ann" 0)).1
    (Reachable.step (Reachable.init defaultConfig mapC1)
      (Step.join (newGame defaultConfig mapC1) "u1" "ann" 0 rfl rfl))

/-- The round numbers in the rounds log, in order. -/
def roundsNumbers (g : Game) : List ℤ := g.rounds.map fun r => r.number

theorem rounds_elimCheck (g : Game) (now : ℚ) :
    (eliminatePlayersWithLagCompensation g now).rounds = g.rounds := by
  rw [eliminatePlayersWithLagCompensation]
  cases g.currentRound <;> rfl

theorem rounds_scores (g : Game) (round : Round) :
    (calculateRoundScores g round).rounds = g.rounds := rfl

theorem rounds_rankings (g : Game) : (calculateFinalRankings g).rounds = g.rounds := rfl

theorem rounds_endGame (g : Game) : (endGame g).rounds = g.rounds := rfl

theorem rounds_finishRound (g : Game) (now : ℚ) :
    (finishRound g now).rounds = g.rounds := by
  rw [finishRound]
  cases g.currentRound with
  | none => rfl
  | some round =>
      dsimp only
      split
      · rfl
      · rfl

theorem rounds_timing (g : Game) (now : ℚ) :
    (processRoundTiming g now).rounds = g.rounds := by
  rw [processRoundTiming]
  cases g.currentRound with
  | none => rfl
  | some round =>
      dsimp only
      cases round.phase <;> dsimp only <;> split
      · rfl
      · rfl
      · exact rounds_elimCheck _ now
      · rfl
      · rfl
      · rfl
      · exact rounds_finishRound g now
      · rfl

theorem rounds_validate (g : Game) (sqrtFn : ℚ → ℚ) (now : ℚ) :
    (validatePlayerMovements g sqrtFn now).1.rounds = g.rounds := rfl

theorem roundsNumbers_startNewRound (g : Game) (color : ℤ) (now : ℚ)
    (h : roundsNumbers g = (List.range g.rounds.length).map fun i => (i : ℤ) + 1) :
    roundsNumbers (startNewRound g color now)
      = (List.range (startNewRound g color now).rounds.length).map fun i => (i : ℤ) + 1 := by
  unfold roundsNumbers at h ⊢
  rw [startNewRound]
  dsimp only
  rw [List.map_append, List.length_append, h]
  simp [List.range_succ]

theorem reachable_roundsNumbers {g : Game} (h : Reachable g) :
    roundsNumbers g = (List.range g.rounds.length).map fun i => (i : ℤ) + 1 := by
  induction h with
  | init cfg m => rfl
  | step hr hs ih =>
      cases hs with
      | join uid uname now hphase hfresh => exact ih
      | startG posAssign color now hphase =>
          exact roundsNumbers_startNewRound _ color now ih
      | timing now hphase =>
          unfold roundsNumbers at ih ⊢
          rw [rounds_timing]
          exact ih
      | validate sqrtFn now hphase => exact ih
      | nextRound color now hphase => exact roundsNumbers_startNewRound _ color now ih
      | endG hphase =>
          unfold roundsNumbers at ih ⊢
          rw [rounds_endGame]
          exact ih

/-- C9: in every reachable game state the logged round numbers are exactly
1, 2, 3, …: each newly started round's number is the number of previously
logged rounds plus one, so the sequence starts at 1 and increases by 1. -/
theorem c9_round_numbers (g : Game) (h : Reachable g) :
    roundsNumbers g = (List.range g.rounds.length).map fun i => (i : ℤ) + 1 :=
  reachable_roundsNumbers h

/-- A reachable game with two started rounds, used by the C9/C10 witnesses. -/
def gTwoRounds : Game :=
  startNewRound (startGame (newGame defaultConfig [[14]]) (fun _ => ⟨3/2, 3/2⟩) 3 0) 5 10

theorem gTwoRounds_reachable : Reachable gTwoRounds :=
  Reachable.step
    (Reachable.step (Reachable.init defaultConfig [[14]])
      (Step.startG (newGame defaultConfig [[14]]) (fun _ => ⟨3/2, 3/2⟩) 3 0 rfl))
    (Step.nextRound _ 5 10 rfl)

/-- Witness for C9 at a concrete reachable two-round game: the log reads
[1, 2]. -/
theorem c9_round_numbers_witness :
    roundsNumbers gTwoRounds = (List.range gTwoRounds.rounds.length).map (fun i => (i : ℤ) + 1)
    ∧ roundsNumbers gTwoRounds = [1, 2] := by
  refine ⟨c9_round_numbers gTwoRounds gTwoRounds_reachable, ?_⟩
  simp [roundsNumbers, gTwoRounds, startNewRound, startGame, newGame]

theorem snapshots_startNewRound (g : Game) (color : ℤ) (now : ℚ)
    (h : ∀ r ∈ g.rounds, r.phase = .colorCall ∧ r.endTime = none ∧ r.eliminatedCount = 0) :
    ∀ r ∈ (startNewRound g color now).rounds,
      r.phase = .colorCall ∧ r.endTime = none ∧ r.eliminatedCount = 0 := by
  intro r hr
  rw [startNewRound] at hr
  dsimp only at hr
  rcases List.mem_append.mp hr with hr1 | hr2
  · exact h r hr1
  · rw [List.mem_singleton.mp hr2]
    exact ⟨rfl, rfl, rfl⟩

theorem reachable_snapshots {g : Game} (h : Reachable g) :
    ∀ r ∈ g.rounds, r.phase = .colorCall ∧ r.endTime = none ∧ r.eliminatedCount = 0 := by
  induction h with
  | init cfg m => intro r hr; cases hr
  | step hr hs ih =>
      cases hs with
      | join uid uname now hphase hfresh => exact ih
      | startG posAssign color now hphase => exact snapshots_startNewRound _ color now ih
      | timing now hphase => rw [rounds_timing]; exact ih
      | validate sqrtFn now hphase => exact ih
      | nextRound color now hphase => exact snapshots_startNewRound _ color now ih
      | endG hphase => rw [rounds_endGame]; exact ih

/-- C10: the Round value appended to the rounds log at round start is a copy
never mutated afterward — in every reachable state each logged entry keeps its
round-start values Phase = ColorCall, EndTime = nil, EliminatedCount = 0,
because all later writes (phase transitions, EndTime, EliminatedCount) go to
the separately referenced current round only. -/
theorem c10_round_log_immutable (g : Game) (h : Reachable g) :
    ∀ r ∈ g.rounds, r.phase = .colorCall ∧ r.endTime = none ∧ r.eliminatedCount = 0 :=
  reachable_snapshots h

/-- Witness for C10: after a color-call-to-rush transition on the two-round
game (which flips the current round's phase), the logged entries still read
ColorCall / nil / 0. -/
theorem c10_round_log_immutable_witness :
    (processRoundTiming gTwoRounds 20).rounds.all
      (fun r => decide (r.phase = .colorCall) && decide (r.endTime = none)
        && decide (r.eliminatedCount = 0)) = true := by
  have h := c10_round_log_immutable (processRoundTiming gTwoRounds 20)
    (Reachable.step gTwoRounds_reachable (Step.timing gTwoRounds 20 rfl))
  rw [List.all_eq_true]
  intro r hr
  obtain ⟨h1, h2, h3⟩ := h r hr
  simp [h1, h2, h3]

theorem map_elimCheck (g : Game) (now : ℚ) :
    (eliminatePlayersWithLagCompensation g now).map = g.map := by
  rw [eliminatePlayersWithLagCompensation]
  cases g.currentRound <;> rfl

theorem map_finishRound (g : Game) (now : ℚ) : (finishRound g now).map = g.map := by
  rw [finishRound]
  cases g.currentRound with
  | none => rfl
  | some round =>
      dsimp only
      split
      · rfl
      · rfl

/-- `processRoundTiming` never writes the grid: no branch (in particular not
the Rush-expiry branch) touches `game.Map`. -/
theorem map_timing (g : Game) (now : ℚ) : (processRoundTiming g now).map = g.map := by
  rw [processRoundTiming]
  cases g.currentRound with
  | none => rfl
  | some round =>
      dsimp only
      cases round.phase <;> dsimp only <;> split
      · rfl
      · rfl
      · exact map_elimCheck _ now
      · rfl
      · rfl
      · rfl
      · exact map_finishRound g now
      · rfl

/-- A round in the Rush phase whose deadline has long expired. -/
def roundRush : Round :=
  { number := 1, phase := .rushPhase, startTime := 0, colorToShow := 14, rushDuration := 4 }

/-- A game sitting in the expired Rush phase with a wrong-color cell at (1,0). -/
def gRush : Game :=
  { phase := .inGame, players := [], playerCount := 0, aliveCount := 0,
    rounds := [roundRush], currentRound := some roundRush,
    map := [[14, 0], [0, 14]], config := cfgC1 }

/-- C4 is violated by the code: when the Rush deadline expires the round
transitions to EliminationCheck but the grid is left unchanged — the wrong
color 0 at cell (1,0) is neither the target 14 nor Air, yet it is not cleared.
(The repository's own game.md, step 4, and the in-game handler document say
non-target blocks are removed at this point.) -/
theorem c4_no_grid_collapse :
    (processRoundTiming gRush 10).currentRound.map Round.phase
        = some RoundPhase.eliminationCheck
    ∧ (processRoundTiming gRush 10).map = gRush.map
    ∧ mapAt gRush.map 0 1 = 0 ∧ (0 : ℤ) ≠ roundRush.colorToShow ∧ (0 : ℤ) ≠ Air := by
  refine ⟨?_, map_timing gRush 10, rfl, by norm_num [roundRush], by norm_num [Air]⟩
  have hc : roundRush.rushDuration - ((10 : ℚ) - roundRush.startTime - 1) ≤ 0 := by
    norm_num [roundRush]
  rw [processRoundTiming]
  simp only [gRush]
  rw [if_pos hc]
  rfl

/-- C5: a position update whose implied speed (Euclidean distance over a
positive elapsed time) exceeds the maximum speed beyond the 1.05 tolerance is
rejected: the player's position is rolled back to the last valid position, a
rejection notice carrying the reason, the measured speed, the maximum speed and
the corrected position is produced for that player only, nothing else of the
player (stats included) changes, the position history is untouched, and the
remaining players are processed exactly as they would be on their own. -/
theorem c5_movement_rejection (cfg : GameConfig) (sqrtFn : ℚ → ℚ) (now : ℚ)
    (hist : List (String × Position)) (p : Player) (prev : Position) (ps : List Player)
    (hc : checked p = true)
    (hprev : histGet hist p.id = some prev)
    (hnz : p.lastUpdate ≠ 0)
    (hdt : 0 < now - p.lastUpdate)
    (hfast : cfg.maxMovementSpeed * (21/20)
        < sqrtFn ((p.position.x - prev.x) * (p.position.x - prev.x)
            + (p.position.y - prev.y) * (p.position.y - prev.y)) / (now - p.lastUpdate)) :
    ∃ rej : Rejection,
      validateOne cfg sqrtFn now hist p
          = ({ p with position := p.lastValidPosition }, hist, some rej)
      ∧ valLoop cfg sqrtFn now (p :: ps) hist
          = ({ p with position := p.lastValidPosition } :: (valLoop cfg sqrtFn now ps hist).1,
             (valLoop cfg sqrtFn now ps hist).2.1,
             rej :: (valLoop cfg sqrtFn now ps hist).2.2)
      ∧ rej.playerId = p.id
      ∧ rej.speed = sqrtFn ((p.position.x - prev.x) * (p.position.x - prev.x)
            + (p.position.y - prev.y) * (p.position.y - prev.y)) / (now - p.lastUpdate)
      ∧ rej.maxSpeed = cfg.maxMovementSpeed
      ∧ rej.resetPosition = p.lastValidPosition := by
  have hskip : ¬((p.isEliminated : Prop) ∨ (p.isSpectator : Prop)) := by
    unfold checked at hc
    simp at hc
    simp [hc.1, hc.2]
  have hone : ∃ rej : Rejection,
      validateOne cfg sqrtFn now hist p
        = ({ p with position := p.lastValidPosition }, hist, some rej)
      ∧ rej.playerId = p.id
      ∧ rej.speed = sqrtFn ((p.position.x - prev.x) * (p.position.x - prev.x)
            + (p.position.y - prev.y) * (p.position.y - prev.y)) / (now - p.lastUpdate)
      ∧ rej.maxSpeed = cfg.maxMovementSpeed
      ∧ rej.resetPosition = p.lastValidPosition := by
    rw [validateOne, if_neg hskip, hprev]
    dsimp only
    rw [if_neg hnz, if_neg (by linarith : ¬(now - p.lastUpdate ≤ 0))]
    by_cases hob : p.position.x < 1 ∨ 21 < p.position.x ∨ p.position.y < 1 ∨ 21 < p.position.y
    · rw [if_pos hob]
      exact ⟨_, rfl, rfl, rfl, rfl, rfl⟩
    · rw [if_neg hob]
      by_cases htel : cfg.maxMovementSpeed * (now - p.lastUpdate) * (11/10)
          < sqrtFn ((p.position.x - prev.x) * (p.position.x - prev.x)
              + (p.position.y - prev.y) * (p.position.y - prev.y))
      · rw [if_pos htel]
        exact ⟨_, rfl, rfl, rfl, rfl, rfl⟩
      · rw [if_neg htel, if_pos hfast]
        exact ⟨_, rfl, rfl, rfl, rfl, rfl⟩
  rcases hone with ⟨rej, heq, h1, h2, h3, h4⟩
  refine ⟨rej, heq, ?_, h1, h2, h3, h4⟩
  rw [valLoop]
  rw [heq]

/-- The square root used by the C5 witness (`√25 = 5`). -/
def sqrtW : ℚ → ℚ := fun _ => 5

/-- The fast-moving player of the C5 witness: moved from (1,1) to (4,5)
(distance 5) in half a second, so speed 10 against a maximum of 5. -/
def pFast : Player :=
  { id := "w", name := "w", position := ⟨4, 5⟩, lastUpdate := 1,
    lastValidPosition := ⟨2, 2⟩ }

/-- The position history of the C5 witness. -/
def histW : List (String × Position) := [("w", ⟨1, 1⟩)]

/-- Witness for C5: the hypotheses hold for `pFast` (speed 10 > 5·1.05) and the
theorem produces the rollback and the rejection notice. -/
theorem c5_movement_rejection_witness :
    checked pFast = true
    ∧ histGet histW pFast.id = some ⟨1, 1⟩
    ∧ pFast.lastUpdate ≠ 0
    ∧ 0 < (3/2 : ℚ) - pFast.lastUpdate
    ∧ defaultConfig.maxMovementSpeed * (21/20)
        < sqrtW ((pFast.position.x - 1) * (pFast.position.x - 1)
            + (pFast.position.y - 1) * (pFast.position.y - 1)) / ((3/2 : ℚ) - pFast.lastUpdate)
    ∧ ∃ rej : Rejection,
        validateOne defaultConfig sqrtW (3/2) histW pFast
            = ({ pFast with position := pFast.lastValidPosition }, histW, some rej)
        ∧ valLoop defaultConfig sqrtW (3/2) [pFast] histW
            = ({ pFast with position := pFast.lastValidPosition }
                :: (valLoop defaultConfig sqrtW (3/2) [] histW).1,
               (valLoop defaultConfig sqrtW (3/2) [] histW).2.1,
               rej :: (valLoop defaultConfig sqrtW (3/2) [] histW).2.2)
        ∧ rej.playerId = pFast.id
        ∧ rej.speed = sqrtW ((pFast.position.x - 1) * (pFast.position.x - 1)
              + (pFast.position.y - 1) * (pFast.position.y - 1)) / ((3/2 : ℚ) - pFast.lastUpdate)
        ∧ rej.maxSpeed = defaultConfig.maxMovementSpeed
        ∧ rej.resetPosition = pFast.lastValidPosition := by
  refine ⟨rfl, ?_, by norm_num [pFast], by norm_num [pFast], ?_, ?_⟩
  · simp [histW, pFast, histGet]
  · norm_num [sqrtW, pFast, defaultConfig]
  · exact c5_movement_rejection defaultConfig sqrtW (3/2) histW pFast ⟨1, 1⟩ []
      rfl (by simp [histW, pFast, histGet]) (by norm_num [pFast]) (by norm_num [pFast])
      (by norm_num [sqrtW, pFast, defaultConfig])

/-- C8 (amended: the two bonus thresholds are compared against the remaining
rush time `RushDuration − responseTime`, not against the response time, and
require `0 < responseTime < RushDuration`): each surviving player gains the
survival points; additionally the perfect bonus when the remaining time exceeds
the perfect threshold, else the speed bonus when it exceeds the speed
threshold; each bonus is added exactly once per round to both SpeedBonuses and
Score (Score also receives any streak bonus of the new streak length). -/
theorem c8_round_scoring (cfg : GameConfig) (round : Round) (p : Player)
    (hc : checked p = true) :
    (scorePlayer cfg round p).stats.speedBonuses
        = p.stats.speedBonuses
          + (if 0 < p.lastUpdate - (round.startTime + 1)
                ∧ p.lastUpdate - (round.startTime + 1) < round.rushDuration then
               if cfg.perfectBonusThreshold
                   < round.rushDuration - (p.lastUpdate - (round.startTime + 1)) then
                 cfg.perfectBonusPoints
               else if cfg.speedBonusThreshold
                   < round.rushDuration - (p.lastUpdate - (round.startTime + 1)) then
                 cfg.speedBonusPoints
               else 0
             else 0)
    ∧ (scorePlayer cfg round p).stats.score
        = p.stats.score + cfg.survivalPointsPerRound
          + (if 0 < p.lastUpdate - (round.startTime + 1)
                ∧ p.lastUpdate - (round.startTime + 1) < round.rushDuration then
               if cfg.perfectBonusThreshold
                   < round.rushDuration - (p.lastUpdate - (round.startTime + 1)) then
                 cfg.perfectBonusPoints
               else if cfg.speedBonusThreshold
                   < round.rushDuration - (p.lastUpdate - (round.startTime + 1)) then
                 cfg.speedBonusPoints
               else 0
             else 0)
          + (lookupStreak cfg.streakBonuses (p.stats.currentStreak + 1)).getD 0
    ∧ (scorePlayer cfg round p).stats.survivalPoints
        = p.stats.survivalPoints + cfg.survivalPointsPerRound
    ∧ (scorePlayer cfg round p).stats.perfectRounds
        = p.stats.perfectRounds
          + (if 0 < p.lastUpdate - (round.startTime + 1)
                ∧ p.lastUpdate - (round.startTime + 1) < round.rushDuration then
               if cfg.perfectBonusThreshold
                   < round.rushDuration - (p.lastUpdate - (round.startTime + 1)) then
                 (1 : ℤ)
               else 0
             else 0) := by
  have hskip : ¬((p.isEliminated : Prop) ∨ (p.isSpectator : Prop)) := by
    unfold checked at hc
    simp at hc
    simp [hc.1, hc.2]
  rw [scorePlayer, if_neg hskip]
  dsimp only
  by_cases hrt : 0 < p.lastUpdate - (round.startTime + 1)
      ∧ p.lastUpdate - (round.startTime + 1) < round.rushDuration
  · simp only [if_pos hrt]
    by_cases hperf : cfg.perfectBonusThreshold
        < round.rushDuration - (p.lastUpdate - (round.startTime + 1))
    · simp only [if_pos hperf]
      refine ⟨?_, ?_, ?_, ?_⟩
      · rw [(streakUpdate_spec cfg _).2.1]
      · rw [(streakUpdate_spec cfg _).1]
      · rw [(streakUpdate_spec cfg _).2.2.1]
      · rw [(streakUpdate_spec cfg _).2.2.2]
    · simp only [if_neg hperf]
      by_cases hspeed : cfg.speedBonusThreshold
          < round.rushDuration - (p.lastUpdate - (round.startTime + 1))
      · simp only [if_pos hspeed]
        refine ⟨?_, ?_, ?_, ?_⟩
        · rw [(streakUpdate_spec cfg _).2.1]
        · rw [(streakUpdate_spec cfg _).1]
        · rw [(streakUpdate_spec cfg _).2.2.1]
        · rw [(streakUpdate_spec cfg _).2.2.2]
          dsimp only
          ring
      · simp only [if_neg hspeed]
        refine ⟨?_, ?_, ?_, ?_⟩
        · rw [(streakUpdate_spec cfg _).2.1]
          dsimp only
          ring
        · rw [(streakUpdate_spec cfg _).1]
          dsimp only
          ring
        · rw [(streakUpdate_spec cfg _).2.2.1]
        · rw [(streakUpdate_spec cfg _).2.2.2]
          dsimp only
          ring
  · simp only [if_neg hrt]
    refine ⟨?_, ?_, ?_, ?_⟩
    · rw [(streakUpdate_spec cfg _).2.1]
      dsimp only
      ring
    · rw [(streakUpdate_spec cfg _).1]
      dsimp only
      ring
    · rw [(streakUpdate_spec cfg _).2.2.1]
    · rw [(streakUpdate_spec cfg _).2.2.2]
      dsimp only
      ring

/-- A late round (22+) with rush duration 1.2s, for the C8 theorems. -/
def roundLate : Round :=
  { number := 22, phase := .eliminationCheck, startTime := 0, colorToShow := 3,
    rushDuration := 6/5 }

/-- A survivor who reached the target 0.5s after Rush start. -/
def pQuick : Player :=
  { id := "q", name := "q", position := ⟨3/2, 3/2⟩, lastUpdate := 3/2 }

/-- Witness for C8: for `pQuick` in `roundLate` the remaining time is 0.7s,
above no threshold, so only the survival points are added. -/
theorem c8_round_scoring_witness :
    checked pQuick = true
    ∧ (scorePlayer defaultConfig roundLate pQuick).stats.speedBonuses
        = pQuick.stats.speedBonuses
          + (if 0 < pQuick.lastUpdate - (roundLate.startTime + 1)
                ∧ pQuick.lastUpdate - (roundLate.startTime + 1) < roundLate.rushDuration then
               if defaultConfig.perfectBonusThreshold
                   < roundLate.rushDuration - (pQuick.lastUpdate - (roundLate.startTime + 1)) then
                 defaultConfig.perfectBonusPoints
               else if defaultConfig.speedBonusThreshold
                   < roundLate.rushDuration - (pQuick.lastUpdate - (roundLate.startTime + 1)) then
                 defaultConfig.speedBonusPoints
               else 0
             else 0)
    ∧ (scorePlayer defaultConfig roundLate pQuick).stats.speedBonuses = 0 := by
  refine ⟨rfl, (c8_round_scoring defaultConfig roundLate pQuick rfl).1, ?_⟩
  rw [(c8_round_scoring defaultConfig roundLate pQuick rfl).1]
  norm_num [pQuick, roundLate, defaultConfig]

/-- Counterexample to C8 as stated: `pQuick`'s response time 0.5s is under the
configured speed threshold (1.0s), yet the code grants no speed bonus, because
the code compares the remaining time (0.7s) — not the response time — against
the thresholds. -/
theorem c8_response_time_counterexample :
    checked pQuick = true
    ∧ 0 < pQuick.lastUpdate - (roundLate.startTime + 1)
    ∧ pQuick.lastUpdate - (roundLate.startTime + 1) < defaultConfig.speedBonusThreshold
    ∧ (scorePlayer defaultConfig roundLate pQuick).stats.speedBonuses
        = pQuick.stats.speedBonuses := by
  refine ⟨rfl, by norm_num [pQuick, roundLate], by norm_num [pQuick, roundLate, defaultConfig], ?_⟩
  norm_num [scorePlayer, streakUpdate, pQuick, roundLate, defaultConfig, lookupStreak]

/-- The strict tie-break order behind `beats`, as a proposition. -/
def BeatsP (a b : Player) : Prop :=
  b.stats.score < a.stats.score
  ∨ (a.stats.score = b.stats.score ∧ b.stats.roundsSurvived < a.stats.roundsSurvived)
  ∨ (a.stats.score = b.stats.score ∧ a.stats.roundsSurvived = b.stats.roundsSurvived
      ∧ a.stats.averageResponseTime < b.stats.averageResponseTime)

theorem beats_iff (a b : Player) : beats a b = true ↔ BeatsP a b := by
  unfold beats BeatsP
  simp

theorem beats_irrefl (a : Player) : beats a a = false := by
  rw [← Bool.not_eq_true, beats_iff]
  rintro (h | ⟨-, h⟩ | ⟨-, -, h⟩) <;> exact absurd h (lt_irrefl _)

theorem beats_trans {a b c : Player} (h1 : beats a b = true) (h2 : beats b c = true) :
    beats a c = true := by
  rw [beats_iff] at h1 h2 ⊢
  rcases h1 with h | ⟨e1, h⟩ | ⟨e1, e2, h⟩ <;>
    rcases h2 with h' | ⟨e1', h'⟩ | ⟨e1', e2', h'⟩ <;>
    unfold BeatsP <;>
    first
      | (left; linarith)
      | (right; left; exact ⟨by linarith, by linarith⟩)
      | (right; right; exact ⟨by linarith, by linarith, by linarith⟩)

theorem beats_cotrans {a c : Player} (b : Player) (h : beats a c = true) :
    beats a b = true ∨ beats b c = true := by
  rw [beats_iff] at h
  rw [beats_iff, beats_iff]
  rcases h with h | ⟨e1, h⟩ | ⟨e1, e2, h⟩
  · rcases le_or_lt a.stats.score b.stats.score with hs | hs
    · right; left; linarith
    · left; left; exact hs
  · rcases lt_trichotomy b.stats.score a.stats.score with hs | hs | hs
    · left; left; exact hs
    · rcases le_or_lt a.stats.roundsSurvived b.stats.roundsSurvived with hr | hr
      · right; right; left; exact ⟨by linarith, by linarith⟩
      · left; right; left; exact ⟨by linarith, by linarith⟩
    · right; left; linarith
  · rcases lt_trichotomy b.stats.score a.stats.score with hs | hs | hs
    · left; left; exact hs
    · rcases lt_trichotomy b.stats.roundsSurvived a.stats.roundsSurvived with hr | hr | hr
      · left; right; left; exact ⟨by linarith, by linarith⟩
      · rcases le_or_lt b.stats.averageResponseTime a.stats.averageResponseTime with ht | ht
        · right; right; right; exact ⟨by linarith, by linarith, by linarith⟩
        · left; right; right; exact ⟨by linarith, by linarith, by linarith⟩
      · right; right; left; exact ⟨by linarith, by linarith⟩
    · right; left; linarith

theorem selInner_start {α : Type} (better : α → α → Bool)
    (htrans : ∀ x y z, better x y = true → better y z = true → better x z = true)
    (hirr : ∀ x, better x x = false) :
    ∀ (l : List α) (cur : α), better cur (selInner better cur l).1 = false := by
  intro l
  induction l with
  | nil => intro cur; exact hirr cur
  | cons x xs ih =>
      intro cur
      rw [selInner]
      by_cases h : better x cur = true
      · rw [if_pos h]
        dsimp only
        rcases Bool.eq_false_or_eq_true (better cur (selInner better x xs).1) with ht | hf
        · exact absurd (htrans x cur _ h ht) (by rw [ih x]; simp)
        · exact hf
      · rw [if_neg h]
        exact ih cur

theorem selInner_rest {α : Type} (better : α → α → Bool)
    (htrans : ∀ x y z, better x y = true → better y z = true → better x z = true)
    (hirr : ∀ x, better x x = false)
    (hco : ∀ x y z, better x z = true → better x y = true ∨ better y z = true) :
    ∀ (l : List α) (cur : α), ∀ y ∈ (selInner better cur l).2,
      better y (selInner better cur l).1 = false := by
  intro l
  induction l with
  | nil => intro cur y hy; cases hy
  | cons x xs ih =>
      intro cur y hy
      rw [selInner] at hy ⊢
      by_cases h : better x cur = true
      · rw [if_pos h] at hy ⊢
        dsimp only at hy ⊢
        rcases List.mem_cons.mp hy with rfl | hy'
        · rcases Bool.eq_false_or_eq_true (better y (selInner better x xs).1) with ht | hf
          · exact absurd (htrans x y _ h ht)
              (by rw [selInner_start better htrans hirr xs x]; simp)
          · exact hf
        · exact ih x y hy'
      · rw [if_neg h] at hy ⊢
        dsimp only at hy ⊢
        rcases List.mem_cons.mp hy with rfl | hy'
        · rcases Bool.eq_false_or_eq_true (better y (selInner better cur xs).1) with ht | hf
          · rcases hco y cur _ ht with h1 | h2
            · exact absurd h1 h
            · exact absurd h2
                (by rw [selInner_start better htrans hirr xs cur]; simp)
          · exact hf
        · exact ih cur y hy'

theorem selSort_sorted {α : Type} (better : α → α → Bool)
    (htrans : ∀ x y z, better x y = true → better y z = true → better x z = true)
    (hirr : ∀ x, better x x = false)
    (hco : ∀ x y z, better x z = true → better x y = true ∨ better y z = true) :
    (l : List α) → List.Pairwise (fun a b => better b a = false) (selSort better l)
  | [] => by rw [selSort]; exact List.Pairwise.nil
  | x :: xs => by
      rw [selSort]
      refine List.Pairwise.cons ?_ (selSort_sorted better htrans hirr hco (selInner better x xs).2)
      intro b hb
      have hb2 : b ∈ (selInner better x xs).2 :=
        (selSort_perm better (selInner better x xs).2).mem_iff.mp hb
      exact selInner_rest better htrans hirr hco xs x b hb2
termination_by l => l.length
decreasing_by
  simp only [selInner_length, List.length_cons]
  omega

theorem resolveTiebreakers_spec (cfg : GameConfig) (n : ℕ) (alive : List Player) :
    (resolveTiebreakers cfg n alive).map (fun p => p.stats.finalPosition)
        = (List.range alive.length).map (fun i : ℕ => (i : ℤ) + 1)
    ∧ List.Forall₂ (fun q is =>
          q.stats.finalPosition = (is.1 : ℤ) + 1
          ∧ q.stats.roundsSurvived = (n : ℤ)
          ∧ q.stats.score = is.2.stats.score
              + (if is.1 = 0 then cfg.finalWinnerBonus else 0)
          ∧ q.id = is.2.id ∧ q.isEliminated = is.2.isEliminated)
        (resolveTiebreakers cfg n alive) (selSort beats alive).enum := by
  constructor
  · unfold resolveTiebreakers
    rw [List.map_map]
    have hpt : ∀ ip : ℕ × Player,
        ((fun p => p.stats.finalPosition) ∘ fun ip : ℕ × Player =>
          let s : PlayerStats := { ip.2.stats with
            finalPosition := (ip.1 : ℤ) + 1
            roundsSurvived := (n : ℤ) }
          if ip.1 = 0 then { ip.2 with stats := { s with score := s.score + cfg.finalWinnerBonus } }
          else { ip.2 with stats := s }) ip = (ip.1 : ℤ) + 1 := by
      intro ip
      by_cases h0 : ip.1 = 0 <;> simp [h0, Function.comp]
    rw [List.map_congr_left fun ip _ => hpt ip, ← (selSort_perm beats alive).length_eq,
      ← List.enum_map_fst, List.map_map]
    rfl
  · unfold resolveTiebreakers
    rw [List.forall₂_map_left_iff, List.forall₂_same]
    intro ip hip
    by_cases h0 : ip.1 = 0 <;> simp [h0]

/-- C3 (amended: survivors tied on all three criteria do NOT share a placement
or bonus tier — the exchange sort leaves them in an implementation-determined
order and each receives a distinct consecutive placement, with the
final-winner bonus going only to the survivor placed first): at the round cap
with more than one survivor, settlement sorts the survivors by descending
score, then descending rounds survived, then ascending average response time;
placements are exactly 1..k in that order; the survivor placed first
additionally receives the final-winner bonus; and every survivor receives the
endurance bonus exactly once (it is added to each alive player before
ranking). -/
theorem c3_round_cap_settlement (g : Game)
    (h25 : 25 ≤ g.rounds.length)
    (hmulti : 1 < (enduredAlive g).length) :
    List.Perm (selSort beats (enduredAlive g)) (enduredAlive g)
    ∧ List.Pairwise (fun a b => beats b a = false) (selSort beats (enduredAlive g))
    ∧ (finalAliveList g).map (fun p => p.stats.finalPosition)
        = (List.range (enduredAlive g).length).map (fun i : ℕ => (i : ℤ) + 1)
    ∧ List.Forall₂ (fun q is =>
          q.stats.finalPosition = (is.1 : ℤ) + 1
          ∧ q.stats.roundsSurvived = (g.rounds.length : ℤ)
          ∧ q.stats.score = is.2.stats.score
              + (if is.1 = 0 then g.config.finalWinnerBonus else 0)
          ∧ q.id = is.2.id ∧ q.isEliminated = is.2.isEliminated)
        (finalAliveList g) (selSort beats (enduredAlive g)).enum
    ∧ enduredAlive g
        = (g.players.filter fun p => !p.isEliminated).map (addEndurance g.config) := by
  have hfl : finalAliveList g
      = resolveTiebreakers g.config g.rounds.length (enduredAlive g) := by
    rw [finalAliveList, if_neg (by omega), if_pos hmulti]
  refine ⟨selSort_perm beats (enduredAlive g),
    selSort_sorted beats (fun x y z h1 h2 => beats_trans h1 h2) beats_irrefl
      (fun x y z h => beats_cotrans y h) (enduredAlive g), ?_, ?_, ?_⟩
  · rw [hfl]
    exact (resolveTiebreakers_spec g.config g.rounds.length (enduredAlive g)).1
  · rw [hfl]
    exact (resolveTiebreakers_spec g.config g.rounds.length (enduredAlive g)).2
  · rw [enduredAlive, if_pos h25]

/-- Survivor with the higher score, for the C3 witness. -/
def pLead : Player := { id := "s1", name := "s1", position := ⟨1, 1⟩, stats := { score := 150 } }

/-- Survivor with the lower score, for the C3 witness. -/
def pTrail : Player := { id := "s2", name := "s2", position := ⟨1, 1⟩, stats := { score := 120 } }

/-- A game at the 25-round cap with two survivors. -/
def gCap : Game :=
  { phase := .inGame, players := [pLead, pTrail], playerCount := 2, aliveCount := 2,
    rounds := List.replicate 25 roundRush, currentRound := none,
    map := [[14]], config := defaultConfig }

/-- Witness for C3 at `gCap`: both hypotheses hold, the theorem applies, and
the concrete placements/scores come out as 1,2 with the endurance bonus (200)
added to both survivors and the winner bonus (100) only to the first. -/
theorem c3_round_cap_settlement_witness :
    25 ≤ gCap.rounds.length
    ∧ 1 < (enduredAlive gCap).length
    ∧ (finalAliveList gCap).map (fun p => p.stats.finalPosition)
        = (List.range (enduredAlive gCap).length).map (fun i : ℕ => (i : ℤ) + 1)
    ∧ (finalAliveList gCap).map (fun p => p.stats.score) = [150 + 200 + 100, 120 + 200] := by
  have h25 : 25 ≤ gCap.rounds.length := by simp [gCap]
  have hmulti : 1 < (enduredAlive gCap).length := by
    simp [enduredAlive, gCap, pLead, pTrail]
  refine ⟨h25, hmulti, (c3_round_cap_settlement gCap h25 hmulti).2.2.1, ?_⟩
  norm_num [finalAliveList, enduredAlive, gCap, pLead, pTrail, addEndurance, defaultConfig,
    resolveTiebreakers, selSort, selInner, beats, List.enum, List.enumFrom]

/-- A fully tied survivor, for the C3 counterexample. -/
def pTied1 : Player := { id := "t1", name := "t1", position := ⟨1, 1⟩, stats := { score := 150 } }

/-- A second survivor with identical score, rounds survived and average
response time. -/
def pTied2 : Player := { id := "t2", name := "t2", position := ⟨1, 1⟩, stats := { score := 150 } }

/-- Counterexample to C3 as stated: the survivors are tied on all three
criteria (neither beats the other), yet `resolveTiebreakers` assigns them the
distinct placements 1 and 2 and only the first receives the final-winner
bonus — they do not share a placement or bonus tier. -/
theorem c3_shared_placement_counterexample :
    beats pTied1 pTied2 = false
    ∧ beats pTied2 pTied1 = false
    ∧ (resolveTiebreakers defaultConfig 25 [pTied1, pTied2]).map
        (fun p => p.stats.finalPosition) = [1, 2]
    ∧ (resolveTiebreakers defaultConfig 25 [pTied1, pTied2]).map
        (fun p => p.stats.score) = [150 + 100, 150] := by
  refine ⟨?_, ?_, ?_, ?_⟩ <;>
    norm_num [resolveTiebreakers, selSort, selInner, beats, pTied1, pTied2, defaultConfig,
      List.enum, List.enumFrom]

/-- The multiset of provisional final positions held by eliminated players. -/
def elimPositions (l : List Player) : Multiset ℤ :=
  ((l.filter fun p => p.isEliminated).map fun p => p.stats.finalPosition : List ℤ)

/-- The multiset of final positions of all players. -/
def allPositions (l : List Player) : Multiset ℤ :=
  (l.map fun p => p.stats.finalPosition : List ℤ)

/-- The multiset {a, a−1, …, a−c+1}. -/
def posRange (a : ℤ) (c : ℕ) : Multiset ℤ :=
  ((List.range c).map fun i : ℕ => a - i : List ℤ)

theorem posRange_succ (a : ℤ) (c : ℕ) :
    posRange a (c + 1) = posRange a c + {a - c} := by
  unfold posRange
  rw [List.range_succ, List.map_append]
  rfl

theorem posRange_cons (a : ℤ) (c : ℕ) :
    posRange a (c + 1) = a ::ₘ posRange (a - 1) c := by
  unfold posRange
  rw [List.range_succ_eq_map, List.map_cons, List.map_map]
  have h : ((fun i : ℕ => a - i) ∘ Nat.succ) = fun i : ℕ => (a - 1) - i := by
    funext i
    simp [Function.comp, Nat.succ_eq_add_one]
    ring
  rw [h]
  simp

theorem posRange_add (a : ℤ) (c d : ℕ) :
    posRange a c + posRange (a - c) d = posRange a (c + d) := by
  induction d with
  | zero => simp [posRange]
  | succ d ih =>
      rw [posRange_succ (a - c) d, ← Nat.add_assoc, posRange_succ a (c + d), ← add_assoc, ih]
      have h : a - c - d = a - ((c : ℕ) + (d : ℕ) : ℕ) := by push_cast ; ring
      rw [h]

theorem rangeAsc_eq_posRange (c : ℕ) :
    (((List.range c).map fun i : ℕ => (i : ℤ) + 1 : List ℤ) : Multiset ℤ)
      = posRange (c : ℤ) c := by
  induction c with
  | zero => rfl
  | succ c ih =>
      rw [List.range_succ, List.map_append, ← Multiset.coe_add, ih]
      have hz : ((List.range (c + 1)).map fun i : ℕ => (i : ℤ) + 1) = [] ++
          ((List.range (c + 1)).map fun i : ℕ => (i : ℤ) + 1) := rfl
      rw [posRange_cons]
      have h2 : ((c + 1 : ℕ) : ℤ) - 1 = (c : ℤ) := by push_cast; ring
      have h3 : ((c + 1 : ℕ) : ℤ) = (c : ℤ) + 1 := by push_cast; ring
      rw [h2, h3, add_comm]
      simp [Multiset.singleton_add]

theorem posRange_nodup (a : ℤ) (c : ℕ) : (posRange a c).Nodup := by
  unfold posRange
  rw [Multiset.coe_nodup]
  refine List.Nodup.map ?_ (List.nodup_range c)
  intro i j h
  have h2 : a - (i : ℤ) = a - (j : ℤ) := h
  omega

theorem posRange_pos {a : ℤ} {c : ℕ} (h : (c : ℤ) ≤ a) :
    ∀ x ∈ posRange a c, 0 < x := by
  intro x hx
  unfold posRange at hx
  rw [Multiset.mem_coe, List.mem_map] at hx
  rcases hx with ⟨i, hi, rfl⟩
  rw [List.mem_range] at hi
  omega

theorem countP_not_add (l : List Player) :
    (l.countP fun p => p.isEliminated) + (l.countP fun p => !p.isEliminated) = l.length := by
  induction l with
  | nil => rfl
  | cons p ps ih =>
      by_cases h : p.isEliminated = true <;>
        simp [List.countP_cons, h] <;> omega

theorem elimPositions_cons (p : Player) (l : List Player) :
    elimPositions (p :: l)
      = (if p.isEliminated = true then ({p.stats.finalPosition} : Multiset ℤ) else 0)
        + elimPositions l := by
  unfold elimPositions
  by_cases h : p.isEliminated = true <;> simp [List.filter_cons, h]

theorem elimLoop_posIds (cfg : GameConfig) (m : List (List ℤ)) (target : ℤ)
    (totalPlayers roundNumber : ℤ) (now : ℚ) (ps : List Player) (alive : ℤ) :
    elimPositions (elimLoop cfg m target totalPlayers roundNumber now ps alive).1
        = elimPositions ps
          + posRange alive (elimLoop cfg m target totalPlayers roundNumber now ps alive).2.2
    ∧ (elimLoop cfg m target totalPlayers roundNumber now ps alive).1.map Player.id
        = ps.map Player.id
    ∧ ((∀ p ∈ ps, p.isEliminated = false → p.stats.finalPosition = 0) →
        ∀ q ∈ (elimLoop cfg m target totalPlayers roundNumber now ps alive).1,
          q.isEliminated = false → q.stats.finalPosition = 0)
    ∧ ((∀ p ∈ ps, p.isSpectator = false) →
        ∀ q ∈ (elimLoop cfg m target totalPlayers roundNumber now ps alive).1,
          q.isSpectator = false) := by
  induction ps generalizing alive with
  | nil => simp [elimLoop, elimPositions, posRange]
  | cons p ps ih =>
      by_cases hskip : (p.isEliminated : Prop) ∨ (p.isSpectator : Prop)
      · rw [elimLoop, if_pos hskip]
        dsimp only
        refine ⟨?_, ?_, ?_, ?_⟩
        · rw [elimPositions_cons, elimPositions_cons, (ih alive).1, add_assoc]
        · rw [List.map_cons, List.map_cons, (ih alive).2.1]
        · intro h q hq
          rcases List.mem_cons.mp hq with rfl | hq'
          · exact h q (List.mem_cons_self q ps)
          · exact (ih alive).2.2.1 (fun r hr => h r (List.mem_cons_of_mem p hr)) q hq'
        · intro h q hq
          rcases List.mem_cons.mp hq with rfl | hq'
          · exact h q (List.mem_cons_self q ps)
          · exact (ih alive).2.2.2 (fun r hr => h r (List.mem_cons_of_mem p hr)) q hq'
      · have he : p.isEliminated = false := by
          cases hb : p.isEliminated
          · rfl
          · exact absurd (Or.inl hb) hskip
        rw [elimLoop, if_neg hskip]
        have helim : ∀ alive₀ : ℤ,
            let pa := eliminatePlayer cfg totalPlayers alive₀ roundNumber now p
            let r := elimLoop cfg m target totalPlayers roundNumber now ps pa.2
            elimPositions (pa.1 :: r.1)
                = elimPositions (p :: ps) + posRange alive₀ (r.2.2 + 1)
              ∧ (pa.1 :: r.1).map Player.id = (p :: ps).map Player.id
              ∧ ((∀ x ∈ p :: ps, x.isEliminated = false → x.stats.finalPosition = 0) →
                  ∀ q ∈ pa.1 :: r.1, q.isEliminated = false → q.stats.finalPosition = 0)
              ∧ ((∀ x ∈ p :: ps, x.isSpectator = false) →
                  ∀ q ∈ pa.1 :: r.1, q.isSpectator = false) := by
          intro alive₀
          dsimp only
          refine ⟨?_, ?_, ?_, ?_⟩
          · rw [elimPositions_cons, elimPositions_cons]
            have h1 : (eliminatePlayer cfg totalPlayers alive₀ roundNumber now p).1.isEliminated
                = true := rfl
            have h2 : (eliminatePlayer cfg totalPlayers alive₀ roundNumber now p).1.stats.finalPosition
                = alive₀ := by simp [eliminatePlayer]
            have h3 : (eliminatePlayer cfg totalPlayers alive₀ roundNumber now p).2
                = alive₀ - 1 := rfl
            rw [h1, h2, h3, (ih (alive₀ - 1)).1, he, posRange_cons]
            simp [Multiset.singleton_add, Multiset.add_cons]
          · rw [List.map_cons, List.map_cons, (ih _).2.1]
            rfl
          · intro h q hq
            rcases List.mem_cons.mp hq with rfl | hq'
            · intro hq2
              cases hq2.symm.trans (rfl :
                (eliminatePlayer cfg totalPlayers alive₀ roundNumber now p).1.isEliminated = true)
            · exact (ih _).2.2.1 (fun r hr => h r (List.mem_cons_of_mem p hr)) q hq'
          · intro h q hq
            rcases List.mem_cons.mp hq with rfl | hq'
            · have : (eliminatePlayer cfg totalPlayers alive₀ roundNumber now p).1.isSpectator
                  = p.isSpectator := rfl
              rw [this]
              exact h p (List.mem_cons_self p ps)
            · exact (ih _).2.2.2 (fun r hr => h r (List.mem_cons_of_mem p hr)) q hq'
        by_cases hob : goInt (p.position.x - 1) < 0 ∨ cfg.mapWidth ≤ goInt (p.position.x - 1)
            ∨ goInt (p.position.y - 1) < 0 ∨ cfg.mapHeight ≤ goInt (p.position.y - 1)
        · rw [if_pos hob]
          exact helim alive
        · rw [if_neg hob]
          by_cases hmap : mapAt m (goInt (p.position.y - 1)) (goInt (p.position.x - 1)) ≠ target
          · rw [if_pos hmap]
            exact helim alive
          · rw [if_neg hmap]
            dsimp only
            refine ⟨?_, ?_, ?_, ?_⟩
            · rw [elimPositions_cons, elimPositions_cons, (ih alive).1, add_assoc]
            · rw [List.map_cons, List.map_cons, (ih alive).2.1]
            · intro h q hq
              rcases List.mem_cons.mp hq with rfl | hq'
              · exact h q (List.mem_cons_self q ps)
              · exact (ih alive).2.2.1 (fun r hr => h r (List.mem_cons_of_mem p hr)) q hq'
            · intro h q hq
              rcases List.mem_cons.mp hq with rfl | hq'
              · exact h q (List.mem_cons_self q ps)
              · exact (ih alive).2.2.2 (fun r hr => h r (List.mem_cons_of_mem p hr)) q hq'

theorem findById_id {l : List Player} {i : String} {q : Player}
    (h : findById l i = some q) : q.id = i := by
  induction l with
  | nil => cases h
  | cons p ps ih =>
      rw [findById] at h
      by_cases hp : p.id = i
      · rw [if_pos hp] at h
        injection h with h2
        rw [← h2]
        exact hp
      · rw [if_neg hp] at h
        exact ih h

theorem findById_isSome {l : List Player} {i : String}
    (h : i ∈ l.map Player.id) : ∃ q, findById l i = some q := by
  induction l with
  | nil => cases h
  | cons p ps ih =>
      rw [findById]
      by_cases hp : p.id = i
      · exact ⟨p, if_pos hp⟩
      · rw [if_neg hp]
        apply ih
        have h2 : i = p.id ∨ ∃ a ∈ ps, a.id = i := by simpa using h
        rcases h2 with h1 | ⟨a, ha, haid⟩
        · exact absurd h1.symm hp
        · rw [← haid]
          exact List.mem_map_of_mem Player.id ha

theorem findById_erase_ne {l : List Player} {q : Player} {i : String}
    (hq : q ∈ l) (hne : q.id ≠ i) : findById (l.erase q) i = findById l i := by
  induction l with
  | nil => cases hq
  | cons p ps ih =>
      by_cases hpq : p = q
      · subst hpq
        rw [List.erase_cons_head]
        rw [findById, if_neg hne]
      · rw [List.erase_cons_tail (by simp [hpq])]
        rw [findById, findById]
        by_cases hp : p.id = i
        · rw [if_pos hp, if_pos hp]
        · rw [if_neg hp, if_neg hp]
          exact ih (by rcases List.mem_cons.mp hq with h | h
                       · exact absurd h.symm hpq
                       · exact h)

theorem map_findById_perm : ∀ (S final : List Player),
    List.Perm (final.map Player.id) (S.map Player.id) →
    (S.map Player.id).Nodup →
    List.Perm (S.map fun p => (findById final p.id).getD p) final := by
  intro S
  induction S with
  | nil =>
      intro final hperm hnodup
      have h0 : final.map Player.id = [] := hperm.eq_nil
      have h1 : final = [] := List.map_eq_nil.mp h0
      rw [h1]
      rfl
  | cons p S' ih =>
      intro final hperm hnodup
      have hmem : p.id ∈ final.map Player.id := hperm.mem_iff.mpr (by simp)
      obtain ⟨q, hfind⟩ := findById_isSome hmem
      have hq_mem : q ∈ final := findById_mem hfind
      have hq_id : q.id = p.id := findById_id hfind
      have hperm2 : List.Perm final (q :: final.erase q) := List.perm_cons_erase hq_mem
      have hids : List.Perm ((final.erase q).map Player.id) (S'.map Player.id) := by
        have h1 : List.Perm (final.map Player.id) (q.id :: (final.erase q).map Player.id) :=
          hperm2.map Player.id
      -- compare the two descriptions of final's ids
        have h2 : List.Perm (q.id :: (final.erase q).map Player.id) (p.id :: S'.map Player.id) :=
          h1.symm.trans hperm
        rw [hq_id] at h2
        exact h2.cons_inv
      have hnodup2 : (∀ x ∈ S', ¬x.id = p.id) ∧ (S'.map Player.id).Nodup := by
        simpa using hnodup
      have hcongr : S'.map (fun x => (findById final x.id).getD x)
          = S'.map fun x => (findById (final.erase q) x.id).getD x := by
        apply List.map_congr_left
        intro x hx
        have hxne : x.id ≠ p.id := hnodup2.1 x hx
        rw [findById_erase_ne hq_mem (by rw [hq_id]; exact fun hh => hxne hh.symm)]
      have hhead : (p :: S').map (fun x => (findById final x.id).getD x)
          = q :: S'.map fun x => (findById final x.id).getD x := by
        rw [List.map_cons, hfind]
        rfl
      rw [hhead, hcongr]
      exact ((ih (final.erase q) hids hnodup2.2).cons q).trans hperm2.symm

theorem enduredAlive_ids (g : Game) :
    (enduredAlive g).map Player.id
      = (g.players.filter fun p => !p.isEliminated).map Player.id := by
  unfold enduredAlive
  by_cases h25 : 25 ≤ g.rounds.length
  · rw [if_pos h25, List.map_map]
    exact List.map_congr_left fun p _ => rfl
  · rw [if_neg h25]

theorem enduredAlive_length (g : Game) :
    (enduredAlive g).length = (g.players.filter fun p => !p.isEliminated).length := by
  unfold enduredAlive
  by_cases h25 : 25 ≤ g.rounds.length
  · rw [if_pos h25, List.length_map]
  · rw [if_neg h25]

theorem resolveTiebreakers_ids (cfg : GameConfig) (n : ℕ) (l : List Player) :
    List.Perm ((resolveTiebreakers cfg n l).map Player.id) (l.map Player.id) := by
  unfold resolveTiebreakers
  rw [List.map_map]
  have h1 : (selSort beats l).enum.map
      (Player.id ∘ fun ip : ℕ × Player =>
        let s : PlayerStats := { ip.2.stats with
          finalPosition := (ip.1 : ℤ) + 1
          roundsSurvived := (n : ℤ) }
        if ip.1 = 0 then { ip.2 with stats := { s with score := s.score + cfg.finalWinnerBonus } }
        else { ip.2 with stats := s })
      = (selSort beats l).enum.map fun ip => ip.2.id := by
    apply List.map_congr_left
    intro ip hip
    by_cases h0 : ip.1 = 0 <;> simp [h0, Function.comp]
  rw [h1]
  have h2 : ((selSort beats l).enum.map fun ip => ip.2.id)
      = ((selSort beats l).enum.map Prod.snd).map Player.id := by
    rw [List.map_map]
    rfl
  rw [h2, List.enum_map_snd]
  exact (selSort_perm beats l).map Player.id

theorem finalAliveList_ids (g : Game) :
    List.Perm ((finalAliveList g).map Player.id)
      ((g.players.filter fun p => !p.isEliminated).map Player.id) := by
  unfold finalAliveList
  by_cases h1 : (enduredAlive g).length = 1
  · rw [if_pos h1, List.map_map]
    rw [List.map_congr_left (fun p _ => rfl :
      ∀ p ∈ enduredAlive g, (Player.id ∘ fun w : Player =>
        { w with stats := { w.stats with
            finalPosition := 1
            roundsSurvived := (g.rounds.length : ℤ)
            score := w.stats.score + g.config.finalWinnerBonus } }) p = p.id)]
    rw [← enduredAlive_ids]
    exact List.Perm.refl _
  · rw [if_neg h1]
    by_cases h2 : 1 < (enduredAlive g).length
    · rw [if_pos h2]
      have := resolveTiebreakers_ids g.config g.rounds.length (enduredAlive g)
      rw [enduredAlive_ids] at this
      exact this
    · rw [if_neg h2, enduredAlive_ids]

theorem allPositions_append (l1 l2 : List Player) :
    allPositions (l1 ++ l2) = allPositions l1 + allPositions l2 := by
  unfold allPositions
  rw [List.map_append, ← Multiset.coe_add]

theorem allPositions_perm {l l' : List Player} (h : List.Perm l l') :
    allPositions l = allPositions l' := by
  unfold allPositions
  exact Multiset.coe_eq_coe.mpr (h.map _)

theorem finalAliveList_positions (g : Game) :
    allPositions (finalAliveList g)
      = posRange ((g.players.filter fun p => !p.isEliminated).length : ℤ)
          (g.players.filter fun p => !p.isEliminated).length := by
  rw [← enduredAlive_length]
  unfold finalAliveList
  by_cases h1 : (enduredAlive g).length = 1
  · rw [if_pos h1]
    obtain ⟨w, hw⟩ := List.length_eq_one.mp h1
    rw [hw]
    simp [allPositions, posRange, List.range_succ]
  · rw [if_neg h1]
    by_cases h2 : 1 < (enduredAlive g).length
    · rw [if_pos h2]
      unfold allPositions
      rw [(resolveTiebreakers_spec g.config g.rounds.length (enduredAlive g)).1]
      exact rangeAsc_eq_posRange (enduredAlive g).length
    · have h0 : (enduredAlive g).length = 0 := by omega
      rw [if_neg h2, h0]
      rw [List.length_eq_zero.mp h0]
      rfl

theorem allPositions_rankings (g : Game)
    (hnodup : (g.players.map Player.id).Nodup)
    (helim : elimPositions g.players
        = posRange (g.players.length : ℤ) (g.players.countP fun p => p.isEliminated)) :
    allPositions (calculateFinalRankings g).players
      = posRange (g.players.length : ℤ) g.players.length := by
  have hperm0 : List.Perm
      ((g.players.filter fun p => p.isEliminated)
        ++ (g.players.filter fun p => !p.isEliminated)) g.players :=
    List.filter_append_perm _ g.players
  have hmerge : (calculateFinalRankings g).players
      = g.players.map fun p =>
          if p.isEliminated then p else (findById (finalAliveList g) p.id).getD p := rfl
  have hperm1 : List.Perm (calculateFinalRankings g).players
      (((g.players.filter fun p => p.isEliminated).map fun p =>
          if p.isEliminated then p else (findById (finalAliveList g) p.id).getD p)
        ++ ((g.players.filter fun p => !p.isEliminated).map fun p =>
          if p.isEliminated then p else (findById (finalAliveList g) p.id).getD p)) := by
    rw [hmerge, ← List.map_append]
    exact (hperm0.map _).symm
  have hE : ((g.players.filter fun p => p.isEliminated).map fun p =>
      if p.isEliminated then p else (findById (finalAliveList g) p.id).getD p)
      = g.players.filter fun p => p.isEliminated := by
    have : ∀ p ∈ g.players.filter fun p => p.isEliminated,
        (if p.isEliminated then p else (findById (finalAliveList g) p.id).getD p) = p := by
      intro p hp
      rw [if_pos (by simpa using (List.mem_filter.mp hp).2)]
    rw [List.map_congr_left this]
    simp
  have hA : ((g.players.filter fun p => !p.isEliminated).map fun p =>
      if p.isEliminated then p else (findById (finalAliveList g) p.id).getD p)
      = (g.players.filter fun p => !p.isEliminated).map fun p =>
          (findById (finalAliveList g) p.id).getD p := by
    apply List.map_congr_left
    intro p hp
    have := (List.mem_filter.mp hp).2
    rw [if_neg (by simpa using this)]
  have hSperm : List.Perm
      ((g.players.filter fun p => !p.isEliminated).map fun p =>
        (findById (finalAliveList g) p.id).getD p)
      (finalAliveList g) := by
    apply map_findById_perm
    · exact finalAliveList_ids g
    · have hsub : List.Sublist (g.players.filter fun p => !p.isEliminated) g.players :=
        List.filter_sublist g.players
      exact (hsub.map Player.id).nodup hnodup
  rw [hE, hA] at hperm1
  have heq := allPositions_perm hperm1
  rw [allPositions_append] at heq
  rw [allPositions_perm hSperm, finalAliveList_positions] at heq
  have hElim : allPositions (g.players.filter fun p => p.isEliminated)
      = elimPositions g.players := rfl
  rw [hElim, helim] at heq
  rw [heq]
  have hcount : (g.players.countP fun p => p.isEliminated)
      + (g.players.filter fun p => !p.isEliminated).length = g.players.length := by
    rw [← List.countP_eq_length_filter]
    exact countP_not_add g.players
  have hnk : (g.players.length : ℤ) - (g.players.countP fun p => p.isEliminated)
      = ((g.players.filter fun p => !p.isEliminated).length : ℤ) := by
    omega
  rw [← hnk, posRange_add]
  have hsum : (g.players.countP fun p => p.isEliminated)
      + (g.players.filter fun p => !p.isEliminated).length = g.players.length := hcount
  rw [hsum]

theorem streakUpdate_finalPosition (cfg : GameConfig) (s2 : PlayerStats) :
    (streakUpdate cfg s2).finalPosition = s2.finalPosition := by
  unfold streakUpdate
  dsimp only
  by_cases hl : s2.longestStreak < s2.currentStreak + 1 <;>
    [rw [if_pos hl]; rw [if_neg hl]] <;>
    cases hls : lookupStreak cfg.streakBonuses (s2.currentStreak + 1) <;>
    dsimp only <;> split_ifs <;> rfl

theorem scorePlayer_fields (cfg : GameConfig) (round : Round) (p : Player) :
    (scorePlayer cfg round p).isEliminated = p.isEliminated
    ∧ (scorePlayer cfg round p).isSpectator = p.isSpectator
    ∧ (scorePlayer cfg round p).id = p.id
    ∧ (scorePlayer cfg round p).stats.finalPosition = p.stats.finalPosition := by
  unfold scorePlayer
  by_cases hp : (p.isEliminated : Prop) ∨ (p.isSpectator : Prop)
  · rw [if_pos hp]
    exact ⟨rfl, rfl, rfl, rfl⟩
  · rw [if_neg hp]
    dsimp only
    refine ⟨rfl, rfl, rfl, ?_⟩
    rw [streakUpdate_finalPosition]
    split_ifs <;> rfl

theorem validateOne_fields (cfg : GameConfig) (sqrtFn : ℚ → ℚ) (now : ℚ)
    (hist : List (String × Position)) (p : Player) :
    (validateOne cfg sqrtFn now hist p).1.isEliminated = p.isEliminated
    ∧ (validateOne cfg sqrtFn now hist p).1.isSpectator = p.isSpectator
    ∧ (validateOne cfg sqrtFn now hist p).1.id = p.id
    ∧ (validateOne cfg sqrtFn now hist p).1.stats.finalPosition = p.stats.finalPosition := by
  unfold validateOne
  repeat' split <;> try exact ⟨rfl, rfl, rfl, rfl⟩

/-- Elementwise preservation relation used for the frame lemmas. -/
def FieldsEq (p q : Player) : Prop :=
  q.isEliminated = p.isEliminated ∧ q.isSpectator = p.isSpectator ∧ q.id = p.id
  ∧ q.stats.finalPosition = p.stats.finalPosition

theorem valLoop_fields (cfg : GameConfig) (sqrtFn : ℚ → ℚ) (now : ℚ)
    (ps : List Player) (h : List (String × Position)) :
    List.Forall₂ FieldsEq ps (valLoop cfg sqrtFn now ps h).1 := by
  induction ps generalizing h with
  | nil => exact List.Forall₂.nil
  | cons p ps ih =>
      rw [valLoop]
      dsimp only
      refine List.Forall₂.cons ?_ (ih _)
      obtain ⟨h1, h2, h3, h4⟩ := validateOne_fields cfg sqrtFn now h p
      exact ⟨h1, h2, h3, h4⟩

theorem fieldsPreserved {l l' : List Player} (h : List.Forall₂ FieldsEq l l') :
    elimPositions l' = elimPositions l
    ∧ l'.map Player.id = l.map Player.id
    ∧ l'.countP (fun p => p.isEliminated) = l.countP (fun p => p.isEliminated)
    ∧ l'.length = l.length
    ∧ ((∀ p ∈ l, p.isSpectator = false) → ∀ q ∈ l', q.isSpectator = false)
    ∧ ((∀ p ∈ l, p.isEliminated = false → p.stats.finalPosition = 0) →
        ∀ q ∈ l', q.isEliminated = false → q.stats.finalPosition = 0)
    ∧ l'.countP (fun p => !p.isEliminated) = l.countP (fun p => !p.isEliminated) := by
  induction h with
  | nil => exact ⟨rfl, rfl, rfl, rfl, fun _ _ h => (by cases h), fun _ _ h => (by cases h), rfl⟩
  | cons hr ht ih =>
      obtain ⟨h1, h2, h3, h4⟩ := hr
      refine ⟨?_, ?_, ?_, ?_, ?_, ?_, ?_⟩
      · rw [elimPositions_cons, elimPositions_cons, ih.1, h1, h4]
      · rw [List.map_cons, List.map_cons, ih.2.1, h3]
      · rw [List.countP_cons, List.countP_cons, ih.2.2.1, h1]
      · rw [List.length_cons, List.length_cons, ih.2.2.2.1]
      · intro hspec q hq
        rcases List.mem_cons.mp hq with rfl | hq'
        · rw [h2]
          exact hspec _ (List.mem_cons_self _ _)
        · exact ih.2.2.2.2.1 (fun r hr2 => hspec r (List.mem_cons_of_mem _ hr2)) q hq'
      · intro hzero q hq
        rcases List.mem_cons.mp hq with rfl | hq'
        · intro hz
          rw [h4]
          exact hzero _ (List.mem_cons_self _ _) (h1 ▸ hz)
        · exact ih.2.2.2.2.2.1 (fun r hr2 => hzero r (List.mem_cons_of_mem _ hr2)) q hq'
      · rw [List.countP_cons, List.countP_cons, ih.2.2.2.2.2.2, h1]

theorem forall₂_fields_map {l : List Player} {f : Player → Player}
    (hf : ∀ p ∈ l, FieldsEq p (f p)) : List.Forall₂ FieldsEq l (l.map f) := by
  induction l with
  | nil => exact List.Forall₂.nil
  | cons p ps ih =>
      exact List.Forall₂.cons (hf p (List.mem_cons_self p ps))
        (ih fun r hr => hf r (List.mem_cons_of_mem p hr))

theorem resolveTiebreakers_source {cfg : GameConfig} {n : ℕ} {l : List Player} :
    ∀ q ∈ resolveTiebreakers cfg n l, ∃ p ∈ l,
      q.isSpectator = p.isSpectator ∧ q.isEliminated = p.isEliminated := by
  intro q hq
  unfold resolveTiebreakers at hq
  rcases List.mem_map.mp hq with ⟨ip, hip, rfl⟩
  have hmem : ip.2 ∈ selSort beats l := mem_enum_snd hip
  have hmem2 : ip.2 ∈ l := (selSort_perm beats l).mem_iff.mp hmem
  refine ⟨ip.2, hmem2, ?_, ?_⟩ <;> by_cases h0 : ip.1 = 0 <;> simp [h0]

theorem finalAliveList_spectator (g : Game)
    (hspec : ∀ p ∈ g.players, p.isSpectator = false) :
    ∀ q ∈ finalAliveList g, q.isSpectator = false := by
  have hend : ∀ q ∈ enduredAlive g, q.isSpectator = false := by
    intro q hq
    unfold enduredAlive at hq
    by_cases h25 : 25 ≤ g.rounds.length
    · rw [if_pos h25] at hq
      rcases List.mem_map.mp hq with ⟨p, hp, rfl⟩
      exact hspec p (List.mem_filter.mp hp).1
    · rw [if_neg h25] at hq
      exact hspec q (List.mem_filter.mp hq).1
  intro q hq
  unfold finalAliveList at hq
  by_cases h1 : (enduredAlive g).length = 1
  · rw [if_pos h1] at hq
    rcases List.mem_map.mp hq with ⟨p, hp, rfl⟩
    exact hend p hp
  · rw [if_neg h1] at hq
    by_cases h2 : 1 < (enduredAlive g).length
    · rw [if_pos h2] at hq
      obtain ⟨p, hp, hsp, -⟩ := resolveTiebreakers_source q hq
      rw [hsp]
      exact hend p hp
    · rw [if_neg h2] at hq
      exact hend q hq

theorem rankings_ids (g : Game) :
    (calculateFinalRankings g).players.map Player.id = g.players.map Player.id := by
  rw [calculateFinalRankings]
  dsimp only
  rw [List.map_map]
  apply List.map_congr_left
  intro p hp
  by_cases he : p.isEliminated = true
  · simp [Function.comp, he]
  · simp only [Function.comp, he]
    cases hfind : findById (finalAliveList g) p.id with
    | none => simp
    | some q => simp [findById_id hfind]

theorem rankings_spect (g : Game) (hspec : ∀ p ∈ g.players, p.isSpectator = false) :
    ∀ q ∈ (calculateFinalRankings g).players, q.isSpectator = false := by
  intro q hq
  rw [calculateFinalRankings] at hq
  dsimp only at hq
  rcases List.mem_map.mp hq with ⟨p, hp, rfl⟩
  by_cases he : p.isEliminated = true
  · rw [if_pos he]
    exact hspec p hp
  · rw [if_neg he]
    cases hfind : findById (finalAliveList g) p.id with
    | none => exact hspec p hp
    | some r =>
        rw [Option.getD_some]
        exact finalAliveList_spectator g hspec r (findById_mem hfind)

theorem findById_none_not_mem {l : List Player} {i : String}
    (h : findById l i = none) : i ∉ l.map Player.id := by
  intro hm
  obtain ⟨q, hq⟩ := findById_isSome hm
  rw [h] at hq
  cases hq

theorem elimPositions_of_none {l : List Player}
    (h : ∀ p ∈ l, p.isEliminated = false) :
    elimPositions l = 0 ∧ l.countP (fun p => p.isEliminated) = 0 := by
  constructor
  · unfold elimPositions
    rw [List.filter_eq_nil.mpr fun p hp => by simp [h p hp]]
    rfl
  · exact List.countP_eq_zero.mpr fun p hp => by simp [h p hp]

/-- The bookkeeping invariant behind the FinalPosition uniqueness claim:
besides the alive count, no player is a spectator and the ids are distinct
(the Go registry is a map keyed by id); before the game starts nobody holds a
position; in game the eliminated players hold exactly the provisional
positions n, n−1, … (aliveCount at elimination time) while survivors hold 0;
after settlement the positions are exactly n, …, 1. -/
def posInv (g : Game) : Prop :=
  aliveInv g
  ∧ (∀ p ∈ g.players, p.isSpectator = false)
  ∧ (g.players.map Player.id).Nodup
  ∧ g.playerCount = (g.players.length : ℤ)
  ∧ (g.phase = GamePhase.preGame →
      ∀ p ∈ g.players, p.isEliminated = false ∧ p.stats.finalPosition = 0)
  ∧ (g.phase = GamePhase.inGame →
      elimPositions g.players
          = posRange (g.players.length : ℤ) (g.players.countP fun p => p.isEliminated)
      ∧ ∀ p ∈ g.players, p.isEliminated = false → p.stats.finalPosition = 0)
  ∧ (g.phase = GamePhase.settlement →
      allPositions g.players = posRange (g.players.length : ℤ) g.players.length)

theorem posInv_of_preGame {g : Game} (hphase : g.phase = GamePhase.preGame)
    (h1 : aliveInv g) (h2 : ∀ p ∈ g.players, p.isSpectator = false)
    (h3 : (g.players.map Player.id).Nodup)
    (h4 : g.playerCount = (g.players.length : ℤ))
    (h5 : ∀ p ∈ g.players, p.isEliminated = false ∧ p.stats.finalPosition = 0) :
    posInv g := by
  refine ⟨h1, h2, h3, h4, fun _ => h5, ?_, ?_⟩ <;> intro hph <;> rw [hphase] at hph <;>
    simp at hph

theorem posInv_of_inGame {g : Game} (hphase : g.phase = GamePhase.inGame)
    (h1 : aliveInv g) (h2 : ∀ p ∈ g.players, p.isSpectator = false)
    (h3 : (g.players.map Player.id).Nodup)
    (h4 : g.playerCount = (g.players.length : ℤ))
    (h5 : elimPositions g.players
        = posRange (g.players.length : ℤ) (g.players.countP fun p => p.isEliminated))
    (h6 : ∀ p ∈ g.players, p.isEliminated = false → p.stats.finalPosition = 0) :
    posInv g := by
  refine ⟨h1, h2, h3, h4, ?_, fun _ => ⟨h5, h6⟩, ?_⟩ <;> intro hph <;> rw [hphase] at hph <;>
    simp at hph

theorem posInv_of_settlement {g : Game} (hphase : g.phase = GamePhase.settlement)
    (h1 : aliveInv g) (h2 : ∀ p ∈ g.players, p.isSpectator = false)
    (h3 : (g.players.map Player.id).Nodup)
    (h4 : g.playerCount = (g.players.length : ℤ))
    (h5 : allPositions g.players = posRange (g.players.length : ℤ) g.players.length) :
    posInv g := by
  refine ⟨h1, h2, h3, h4, ?_, ?_, fun _ => h5⟩ <;> intro hph <;> rw [hphase] at hph <;>
    simp at hph

theorem posInv_join {g : Game} (uid uname : String) (now : ℚ)
    (hphase : g.phase = GamePhase.preGame) (hfresh : findById g.players uid = none)
    (h : posInv g) : posInv (joinGame g uid uname now) := by
  obtain ⟨h1, h2, h3, h4, h5, -, -⟩ := h
  refine posInv_of_preGame (g := joinGame g uid uname now) hphase
    (aliveInv_join uid uname now h1) ?_ ?_ ?_ ?_
  · intro p hp
    rcases List.mem_append.mp hp with hp' | hp'
    · exact h2 p hp'
    · rcases List.mem_singleton.mp hp' with rfl
      rfl
  · show ((g.players ++ [_]).map Player.id).Nodup
    rw [List.map_append]
    rw [List.nodup_append]
    refine ⟨h3, List.nodup_singleton _, ?_⟩
    intro x hx hx'
    rcases List.mem_singleton.mp hx' with rfl
    exact findById_none_not_mem hfresh hx
  · have hlen : (joinGame g uid uname now).players.length = g.players.length + 1 := by
      simp [joinGame]
    show g.playerCount + 1 = ((joinGame g uid uname now).players.length : ℤ)
    rw [hlen, h4]
    push_cast
    ring
  · intro p hp
    rcases List.mem_append.mp hp with hp' | hp'
    · exact h5 hphase p hp'
    · rcases List.mem_singleton.mp hp' with rfl
      exact ⟨rfl, rfl⟩

theorem posInv_startGame {g : Game} (posAssign : Player → Position) (color : ℤ) (now : ℚ)
    (hphase : g.phase = GamePhase.preGame) (h : posInv g) :
    posInv (startGame g posAssign color now) := by
  obtain ⟨h1, h2, h3, h4, h5, -, -⟩ := h
  have hflags : ∀ q ∈ (startGame g posAssign color now).players, q.isEliminated = false := by
    intro q hq
    rcases List.mem_map.mp hq with ⟨p, hp, rfl⟩
    exact (h5 hphase p hp).1
  obtain ⟨hzero, hcount⟩ := elimPositions_of_none hflags
  refine posInv_of_inGame (g := startGame g posAssign color now) rfl
    (aliveInv_startGame posAssign color now h1) ?_ ?_ ?_ ?_ ?_
  · intro q hq
    rcases List.mem_map.mp hq with ⟨p, hp, rfl⟩
    exact h2 p hp
  · show ((g.players.map fun p => initializePlayer g.config now (posAssign p) p).map
        Player.id).Nodup
    rw [List.map_map]
    rw [List.map_congr_left (fun p _ => rfl :
      ∀ p ∈ g.players, (Player.id ∘ fun p => initializePlayer g.config now (posAssign p) p) p
        = p.id)]
    exact h3
  · have hlen : (startGame g posAssign color now).players.length = g.players.length := by
      show (g.players.map fun p => initializePlayer g.config now (posAssign p) p).length
        = g.players.length
      rw [List.length_map]
    show g.playerCount = ((startGame g posAssign color now).players.length : ℤ)
    rw [hlen, h4]
  · rw [hzero, hcount]
    rfl
  · intro q hq _
    rcases List.mem_map.mp hq with ⟨p, hp, rfl⟩
    rfl

theorem posInv_elimCheck {g : Game} (now : ℚ) (hphase : g.phase = GamePhase.inGame)
    (h : posInv g) : posInv (eliminatePlayersWithLagCompensation g now) := by
  obtain ⟨h1, h2, h3, h4, -, h6, -⟩ := h
  obtain ⟨helim, hzero⟩ := h6 hphase
  cases hr : g.currentRound with
  | none =>
      have hop : eliminatePlayersWithLagCompensation g now = g := by
        rw [eliminatePlayersWithLagCompensation, hr]
      rw [hop]
      exact posInv_of_inGame hphase h1 h2 h3 h4 helim hzero
  | some round =>
      have hop : eliminatePlayersWithLagCompensation g now =
          { g with
              players := (elimLoop g.config g.map round.colorToShow (g.players.length : ℤ)
                round.number now g.players g.aliveCount).1
              aliveCount := (elimLoop g.config g.map round.colorToShow (g.players.length : ℤ)
                round.number now g.players g.aliveCount).2.1
              currentRound := some { round with
                eliminatedCount := ((elimLoop g.config g.map round.colorToShow
                  (g.players.length : ℤ) round.number now g.players g.aliveCount).2.2 : ℤ) } } := by
        rw [eliminatePlayersWithLagCompensation, hr]
      have hps := elimLoop_posIds g.config g.map round.colorToShow (g.players.length : ℤ)
        round.number now g.players g.aliveCount
      have hcnt := elimLoop_countAlive g.config g.map round.colorToShow (g.players.length : ℤ)
        round.number now g.players g.aliveCount
      have hlen : (elimLoop g.config g.map round.colorToShow (g.players.length : ℤ)
          round.number now g.players g.aliveCount).1.length = g.players.length := by
        have := congrArg List.length hps.2.1
        simpa using this
      have hainv : aliveInv (eliminatePlayersWithLagCompensation g now) :=
        aliveInv_elimCheck now h1
      rw [hop] at hainv ⊢
      refine posInv_of_inGame hphase hainv ?_ ?_ ?_ ?_ ?_
      · exact hps.2.2.2 h2
      · show ((elimLoop _ _ _ _ _ _ _ _).1.map Player.id).Nodup
        rw [hps.2.1]
        exact h3
      · show g.playerCount = _
        rw [h4, hlen]
      · show elimPositions (elimLoop _ _ _ _ _ _ _ _).1 = _
        have hC : (elimLoop g.config g.map round.colorToShow (g.players.length : ℤ)
            round.number now g.players g.aliveCount).1.countP (fun p => p.isEliminated)
            = (g.players.countP fun p => p.isEliminated)
              + (elimLoop g.config g.map round.colorToShow (g.players.length : ℤ)
                  round.number now g.players g.aliveCount).2.2 := by
          have hout := countP_not_add (elimLoop g.config g.map round.colorToShow
            (g.players.length : ℤ) round.number now g.players g.aliveCount).1
          have hin := countP_not_add g.players
          omega
        have halive : g.aliveCount = (g.players.length : ℤ)
            - (g.players.countP fun p => p.isEliminated) := by
          have hin := countP_not_add g.players
          unfold aliveInv at h1
          omega
        rw [hps.1, helim, hC, hlen, halive, posRange_add]
      · exact hps.2.2.1 hzero

theorem posInv_scores {g : Game} (round : Round) (hphase : g.phase = GamePhase.inGame)
    (h : posInv g) : posInv (calculateRoundScores g round) := by
  obtain ⟨h1, h2, h3, h4, -, h6, -⟩ := h
  obtain ⟨helim, hzero⟩ := h6 hphase
  have hfa : List.Forall₂ FieldsEq g.players (g.players.map (scorePlayer g.config round)) :=
    forall₂_fields_map fun p _ => by
      obtain ⟨ha, hb, hc, hd⟩ := scorePlayer_fields g.config round p
      exact ⟨ha, hb, hc, hd⟩
  obtain ⟨f1, f2, f3, f4, f5, f6, -⟩ := fieldsPreserved hfa
  refine posInv_of_inGame (g := calculateRoundScores g round) hphase
    (aliveInv_scores round h1) ?_ ?_ ?_ ?_ ?_
  · exact f5 h2
  · show ((g.players.map (scorePlayer g.config round)).map Player.id).Nodup
    rw [f2]
    exact h3
  · show g.playerCount = ((g.players.map (scorePlayer g.config round)).length : ℤ)
    rw [h4, f4]
  · show elimPositions (g.players.map (scorePlayer g.config round))
      = posRange ((g.players.map (scorePlayer g.config round)).length : ℤ)
          ((g.players.map (scorePlayer g.config round)).countP fun p => p.isEliminated)
    rw [f1, f3, f4, helim]
  · exact f6 hzero

theorem posInv_validate {g : Game} (sqrtFn : ℚ → ℚ) (now : ℚ)
    (hphase : g.phase = GamePhase.inGame) (h : posInv g) :
    posInv (validatePlayerMovements g sqrtFn now).1 := by
  obtain ⟨h1, h2, h3, h4, -, h6, -⟩ := h
  obtain ⟨helim, hzero⟩ := h6 hphase
  have hfa : List.Forall₂ FieldsEq g.players
      (valLoop g.config sqrtFn now g.players g.positionHistory).1 :=
    valLoop_fields g.config sqrtFn now g.players g.positionHistory
  obtain ⟨f1, f2, f3, f4, f5, f6, -⟩ := fieldsPreserved hfa
  refine posInv_of_inGame (g := (validatePlayerMovements g sqrtFn now).1) hphase
    (aliveInv_validate sqrtFn now h1) ?_ ?_ ?_ ?_ ?_
  · exact f5 h2
  · show (((valLoop g.config sqrtFn now g.players g.positionHistory).1).map Player.id).Nodup
    rw [f2]
    exact h3
  · show g.playerCount
      = (((valLoop g.config sqrtFn now g.players g.positionHistory).1).length : ℤ)
    rw [h4, f4]
  · show elimPositions (valLoop g.config sqrtFn now g.players g.positionHistory).1
      = posRange (((valLoop g.config sqrtFn now g.players g.positionHistory).1).length : ℤ)
          (((valLoop g.config sqrtFn now g.players g.positionHistory).1).countP
            fun p => p.isEliminated)
    rw [f1, f3, f4, helim]
  · exact f6 hzero

theorem posInv_endGame {g : Game} (hphase : g.phase = GamePhase.inGame) (h : posInv g) :
    posInv (endGame g) := by
  obtain ⟨h1, h2, h3, h4, -, h6, -⟩ := h
  obtain ⟨helim, -⟩ := h6 hphase
  have hlen : (calculateFinalRankings g).players.length = g.players.length := by
    have := congrArg List.length (rankings_ids g)
    simpa using this
  refine posInv_of_settlement (g := endGame g) rfl (aliveInv_endGame h1) ?_ ?_ ?_ ?_
  · show ∀ p ∈ (calculateFinalRankings g).players, p.isSpectator = false
    exact rankings_spect g h2
  · show ((calculateFinalRankings g).players.map Player.id).Nodup
    rw [rankings_ids]
    exact h3
  · show g.playerCount = ((calculateFinalRankings g).players.length : ℤ)
    rw [h4, hlen]
  · show allPositions (calculateFinalRankings g).players
      = posRange ((calculateFinalRankings g).players.length : ℤ)
          (calculateFinalRankings g).players.length
    rw [hlen]
    exact allPositions_rankings g h3 helim

theorem posInv_finishRound {g : Game} (now : ℚ) (hphase : g.phase = GamePhase.inGame)
    (h : posInv g) : posInv (finishRound g now) := by
  rw [finishRound]
  cases hr : g.currentRound with
  | none => exact h
  | some round =>
      dsimp only
      by_cases hc : g.aliveCount ≤ 1 ∨ 25 ≤ round.number
      · rw [if_pos hc]
        exact posInv_endGame hphase h
      · rw [if_neg hc]
        exact h

theorem posInv_timing {g : Game} (now : ℚ) (hphase : g.phase = GamePhase.inGame)
    (h : posInv g) : posInv (processRoundTiming g now) := by
  rw [processRoundTiming]
  cases hr : g.currentRound with
  | none => exact h
  | some round =>
      dsimp only
      cases round.phase
      · dsimp only
        by_cases hc : 1 ≤ now - round.startTime
        · rw [if_pos hc]; exact h
        · rw [if_neg hc]; exact h
      · dsimp only
        by_cases hc : round.rushDuration - (now - round.startTime - 1) ≤ 0
        · rw [if_pos hc]; exact posInv_elimCheck now hphase h
        · rw [if_neg hc]; exact h
      · dsimp only
        by_cases hc : 1/2 ≤ now - round.startTime - 1 - round.rushDuration
        · rw [if_pos hc]; exact posInv_scores _ hphase h
        · rw [if_neg hc]; exact h
      · dsimp only
        by_cases hc : 1 ≤ now - round.startTime - 1 - round.rushDuration - 1/2
        · rw [if_pos hc]; exact posInv_finishRound now hphase h
        · rw [if_neg hc]; exact h

theorem reachable_posInv {g : Game} (h : Reachable g) : posInv g := by
  induction h with
  | init cfg m =>
      refine posInv_of_preGame rfl rfl ?_ ?_ rfl ?_
      · intro p hp
        cases hp
      · simp [newGame]
      · intro p hp
        cases hp
  | step hr hs ih =>
      cases hs with
      | join uid uname now hphase hfresh => exact posInv_join uid uname now hphase hfresh ih
      | startG posAssign color now hphase => exact posInv_startGame posAssign color now hphase ih
      | timing now hphase => exact posInv_timing now hphase ih
      | validate sqrtFn now hphase => exact posInv_validate sqrtFn now hphase ih
      | nextRound color now hphase => exact ih
      | endG hphase => exact posInv_endGame hphase ih

theorem allPositions_split (l : List Player) :
    allPositions l = elimPositions l + allPositions (l.filter fun p => !p.isEliminated) := by
  have hperm := List.filter_append_perm (fun p => p.isEliminated) l
  have h2 := allPositions_perm hperm
  rw [allPositions_append] at h2
  rw [← h2]
  rfl

theorem allPositions_filter_ne_zero {l : List Player}
    (h : ∀ p ∈ l, p.stats.finalPosition = 0) :
    (allPositions l).filter (fun x => x ≠ 0) = 0 := by
  induction l with
  | nil => simp [allPositions]
  | cons p t ih =>
      have hall : allPositions (p :: t) = p.stats.finalPosition ::ₘ allPositions t := rfl
      rw [hall, Multiset.filter_cons_of_neg _ (by simp [h p (List.mem_cons_self p t)]),
        ih fun r hr => h r (List.mem_cons_of_mem p hr)]

/-- C6: at every reachable state the nonzero FinalPosition values — the
provisional positions granted at elimination time together with the
settlement-time positions — are pairwise distinct, and once the game reaches
Settlement the positions of all players form a permutation of 1..PlayerCount
(with PlayerCount equal to the number of players). -/
theorem c6_final_position_unique (g : Game) (h : Reachable g) :
    Multiset.Nodup ((allPositions g.players).filter fun x => x ≠ 0)
    ∧ (g.phase = GamePhase.settlement →
        g.playerCount = (g.players.length : ℤ)
        ∧ allPositions g.players
            = (((List.range g.players.length).map fun i : ℕ => (i : ℤ) + 1 : List ℤ) :
                Multiset ℤ)) := by
  obtain ⟨h1, h2, h3, h4, h5, h6, h7⟩ := reachable_posInv h
  constructor
  · cases hph : g.phase with
    | preGame =>
        rw [allPositions_filter_ne_zero fun p hp => (h5 hph p hp).2]
        exact Multiset.nodup_zero
    | inGame =>
        obtain ⟨helim, hzero⟩ := h6 hph
        rw [allPositions_split, Multiset.filter_add]
        have hz2 : (allPositions (g.players.filter fun p => !p.isEliminated)).filter
            (fun x => x ≠ 0) = 0 := by
          apply allPositions_filter_ne_zero
          intro p hp
          exact hzero p (List.mem_filter.mp hp).1 (by simpa using (List.mem_filter.mp hp).2)
        rw [hz2, add_zero, helim]
        have hle : ((g.players.countP fun p => p.isEliminated : ℕ) : ℤ)
            ≤ (g.players.length : ℤ) := by
          exact_mod_cast List.countP_le_length _
        rw [Multiset.filter_eq_self.mpr fun x hx => by
          have := posRange_pos hle x hx
          omega]
        exact posRange_nodup _ _
    | settlement =>
        rw [h7 hph]
        have hle : ((g.players.length : ℕ) : ℤ) ≤ (g.players.length : ℤ) := le_refl _
        rw [Multiset.filter_eq_self.mpr fun x hx => by
          have := posRange_pos hle x hx
          omega]
        exact posRange_nodup _ _
  · intro hph
    refine ⟨h4, ?_⟩
    rw [h7 hph, rangeAsc_eq_posRange]

/-- The concrete state used by the C6 witness: two joined players, the game
started with both standing on the target color, then ended. -/
def gC6 : Game :=
  startGame (joinGame (joinGame (newGame defaultConfig mapC1) "a" "ann" 0) "b" "bob" 0)
    (fun _ => ⟨3/2, 3/2⟩) 14 0

/-- Witness for C6: `endGame gC6` is reachable by an explicit step chain, and
the theorem instantiates there: the nonzero positions are distinct and the
settlement positions are a permutation of 1..PlayerCount. -/
theorem c6_final_position_unique_witness :
    Multiset.Nodup ((allPositions (endGame gC6).players).filter fun x => x ≠ 0)
    ∧ ((endGame gC6).phase = GamePhase.settlement →
        (endGame gC6).playerCount = ((endGame gC6).players.length : ℤ)
        ∧ allPositions (endGame gC6).players
            = (((List.range (endGame gC6).players.length).map fun i : ℕ => (i : ℤ) + 1 :
                List ℤ) : Multiset ℤ)) :=
  c6_final_position_unique (endGame gC6)
    (Reachable.step
      (Reachable.step
        (Reachable.step
          (Reachable.step (Reachable.init defaultConfig mapC1)
            (Step.join (newGame defaultConfig mapC1) "a" "ann" 0 rfl rfl))
          (Step.join (joinGame (newGame defaultConfig mapC1) "a" "ann" 0) "b" "bob" 0 rfl rfl))
        (Step.startG (joinGame (joinGame (newGame defaultConfig mapC1) "a" "ann" 0) "b" "bob" 0)
          (fun _ => ⟨3/2, 3/2⟩) 14 0 rfl))
      (Step.endG gC6 rfl))

end BlindParty
